import Mathlib

set_option autoImplicit false

/-!
Verification development for the qonnx range-analysis module
(src/qonnx/util/range_analysis.py).  The Python source is shallowly
embedded: numpy arrays become flat row-major lists of rationals with an
explicit shape, Python dicts become insertion-ordered association lists,
fallible operations return Except, and the boundary graph-model library
(model accessors, node executor, graph rewrites) is abstracted as
explicit function parameters.
-/

namespace RangeAnalysis

/-! ## Numpy core: arrays, broadcasting, elementwise operations -/

/-- Flat row-major array of rationals with an explicit shape, modelling a
numpy ndarray (exact arithmetic in place of floating point). -/
structure NDArray where
  shape : List Nat
  data : List ℚ
deriving DecidableEq

/-- Element count of a shape (numpy size). -/
def shapeSize (s : List Nat) : Nat := s.prod

/-- Combination of two dimensions under the numpy broadcasting rule. -/
def broadcastDim (a b : Nat) : Option Nat :=
  if a = b then some a else if a = 1 then some b else if b = 1 then some a else none

/-- Broadcasting of two reversed shapes (so the rule is left-aligned here). -/
def broadcastRev : List Nat → List Nat → Option (List Nat)
  | [], t => some t
  | s, [] => some s
  | a :: s, b :: t => do
    let d ← broadcastDim a b
    let r ← broadcastRev s t
    pure (d :: r)

/-- Numpy broadcast of two shapes (right-aligned). -/
def broadcastShapes (s t : List Nat) : Option (List Nat) :=
  (broadcastRev s.reverse t.reverse).map List.reverse

/-- Multi-index of the flat row-major position `i` in shape `s`. -/
def unflattenIdx : List Nat → Nat → List Nat
  | [], _ => []
  | _ :: rest, i => (i / shapeSize rest) :: unflattenIdx rest (i % shapeSize rest)

/-- Flat row-major position of a multi-index in shape `s`. -/
def flattenIdx : List Nat → List Nat → Nat
  | [], _ => 0
  | _ :: _, [] => 0
  | _ :: rest, m :: ms => m * shapeSize rest + flattenIdx rest ms

/-- Projection of a multi-index of a broadcast result shape back onto a source
shape: right-align, and read size-1 source dimensions at index 0. -/
def projIdx (src : List Nat) (multi : List Nat) : List Nat :=
  List.zipWith (fun d m => if d = 1 then 0 else m) src (multi.drop (multi.length - src.length))

/-- Element of an array at a (broadcast result) multi-index. -/
def NDArray.atIdx (a : NDArray) (multi : List Nat) : ℚ :=
  a.data.getD (flattenIdx a.shape (projIdx a.shape multi)) 0

/-- Zero-filled array of a given shape (np.zeros). -/
def zerosND (s : List Nat) : NDArray :=
  ⟨s, List.replicate (shapeSize s) 0⟩

/-- Elementwise binary operation with numpy broadcasting; none models the
numpy broadcast error. -/
def npBinop (f : ℚ → ℚ → ℚ) (a b : NDArray) : Option NDArray :=
  match broadcastShapes a.shape b.shape with
  | none => none
  | some s =>
    some ⟨s, (List.range (shapeSize s)).map
      (fun i => f (a.atIdx (unflattenIdx s i)) (b.atIdx (unflattenIdx s i)))⟩

/-- Value as produced by the Python code: either a Python scalar or an ndarray. -/
inductive NPVal where
  | scalar (q : ℚ)
  | arr (a : NDArray)
deriving DecidableEq

/-- View of a value as an ndarray (a scalar is a rank-0 array). -/
def NPVal.toND : NPVal → NDArray
  | .scalar q => ⟨[], [q]⟩
  | .arr a => a

/-- Elementwise binary operation on values; two Python scalars combine to a
Python scalar, anything involving an ndarray produces an ndarray. -/
def npBinopV (f : ℚ → ℚ → ℚ) : NPVal → NPVal → Option NPVal
  | .scalar a, .scalar b => some (.scalar (f a b))
  | x, y => (npBinop f x.toND y.toND).map NPVal.arr

/-- Python value that may be None (numpy operations reject None operands). -/
abbrev PyVal := Option NPVal

/-- Numpy broadcast equality check `(x == y).all()`. -/
def npEqAll (x y : NPVal) : Bool :=
  match npBinopV (fun a b => if a == b then 1 else 0) x y with
  | some r => r.toND.data.all (fun q => q == 1)
  | none => false

/-- Fractional part `q % 1` under numpy modulo semantics. -/
def npMod1 (q : ℚ) : ℚ := q - (Rat.floor q : ℚ)

/-- Test `((t % 1) == 0).all()` used to recognize all-integral constants. -/
def npAllIntegral (t : NDArray) : Bool :=
  t.data.all (fun q => npMod1 q == 0)

/-! ## Python dict as insertion-ordered association list -/

/-- Lookup in a Python dict. -/
def dictGet {α : Type} (d : List (String × α)) (k : String) : Option α :=
  (d.find? (fun kv => kv.1 == k)).map (fun kv => kv.2)

/-- Keyed update of a Python dict: replace the value of an existing key in
place, otherwise append preserving insertion order. -/
def dictSet {α : Type} (d : List (String × α)) (k : String) (v : α) : List (String × α) :=
  if d.any (fun kv => kv.1 == k) then d.map (fun kv => if kv.1 == k then (k, v) else kv)
  else d ++ [(k, v)]

/-- Lookup that raises a KeyError, as Python subscripting does. -/
def keyGet {α : Type} (d : List (String × α)) (k : String) : Except String α :=
  match dictGet d k with
  | some v => .ok v
  | none => .error ("KeyError: " ++ k)

/-! ## Data model: RangeInfo, nodes, the abstracted graph model -/

/-- Range pair as stored by the Python code; either bound may be Python None. -/
abbrev RPair := PyVal × PyVal

/-- RangeInfo dataclass: range information for one tensor. -/
structure RangeInfo where
  range : Option RPair := none
  int_range : Option RPair := none
  scale : Option NPVal := none
  bias : Option NPVal := none
  is_initializer : Bool := false
deriving DecidableEq

/-- Whether the RangeInfo has its int_range, scale and bias populated. -/
def RangeInfo.has_integer_info (ri : RangeInfo) : Bool :=
  ri.int_range.isSome && ri.scale.isSome && ri.bias.isSome

/-- Mapping from tensor name to RangeInfo. -/
abbrev RangeDict := List (String × RangeInfo)

/-- Graph node: name, operator type, input and output tensor names. -/
structure Node where
  name : String
  op_type : String
  input : List String
  output : List String
deriving DecidableEq

/-- Datatype with representable bounds, as returned by get_tensor_datatype. -/
structure DType where
  min : ℚ
  max : ℚ
deriving DecidableEq

/-- Abstracted graph-model container (the ModelWrapper boundary collaborator):
graph inputs and nodes plus the tensor accessors the analysis uses. -/
structure Model where
  graph_input : List String
  graph_node : List Node
  all_tensor_names : List String
  get_initializer : String → Option NDArray
  get_tensor_valueinfo : String → Option (List Nat)
  get_tensor_datatype : String → Option DType

/-- Return true if a given tensor has no initializer (=dynamic), false otherwise. -/
def is_dyn_input (x : String) (model : Model) : Bool :=
  (model.get_initializer x).isNone && x != ""

/-- Modelled from the spec: the boundary helper valueinfo_to_tensor (from the
graph-model library, whose code is not part of the analyzed source) returns a
freshly allocated zero tensor shaped per the declared value-info. -/
def valueinfo_to_tensor (shape : List Nat) : NDArray := zerosND shape

/-! ## Range shape promotion -/

/-- Broadcast-addition of one range bound to a zero prototype tensor
(`bound + np.zeros_like(proto_tensor)`); a None bound or a broadcast
failure raises. -/
def promote_add_zeros (v : PyVal) (proto : NDArray) : Except String NPVal :=
  match v with
  | none => .error "TypeError: unsupported operand type for +: NoneType"
  | some x =>
    match npBinopV (fun a b => a + b) x (.arr proto) with
    | some r => .ok r
    | none => .error "ValueError: operands could not be broadcast together"

/-- Both bounds of a range broadcast-added to the zero prototype. -/
def promote_both (tensor_range : RPair) (proto : NDArray) : Except String RPair :=
  match promote_add_zeros tensor_range.1 proto with
  | .error e => .error e
  | .ok range_min =>
    match promote_add_zeros tensor_range.2 proto with
    | .error e => .error e
    | .ok range_max => .ok (some range_min, some range_max)

/-- Ensure the range has the appropriate per-element shape: if the minimum
bound is an ndarray already matching the value-info prototype shape the pair
is returned unchanged, otherwise both bounds are broadcast against the zero
prototype array of that shape. -/
def promote_range_shape (tensor_range : RPair) (vi_shape : List Nat) : Except String RPair :=
  match tensor_range.1 with
  | some (.arr a) =>
    if a.shape = (valueinfo_to_tensor vi_shape).shape then .ok tensor_range
    else promote_both tensor_range (valueinfo_to_tensor vi_shape)
  | _ => promote_both tensor_range (valueinfo_to_tensor vi_shape)

/-! ## Initializer range seeding -/

/-- RangeInfo seeded for one initializer constant: a degenerate point range
with is_initializer set, plus the integer decomposition (int_range equal to
the constant, scale np.asarray of 1.0, bias np.asarray of 0.0) when the
constant is all-integral. -/
def init_range_info (tensor_init : NDArray) : RangeInfo :=
  let base : RangeInfo :=
    { range := some (some (.arr tensor_init), some (.arr tensor_init)),
      is_initializer := true }
  if npAllIntegral tensor_init then
    { base with
      int_range := some (some (.arr tensor_init), some (.arr tensor_init)),
      scale := some (.arr ⟨[1], [1]⟩),
      bias := some (.arr ⟨[1], [0]⟩) }
  else base

/-- Use initializers to mark point ranges, i.e. a tensor with initializer X
gets range (X, X); all-integral initializers additionally get int_range,
scale 1 and bias 0. -/
def calc_range_all_initializers (model : Model) (range_dict : RangeDict) : RangeDict :=
  model.all_tensor_names.foldl
    (fun rd tensor_name =>
      match model.get_initializer tensor_name with
      | none => rd
      | some tensor_init => dictSet rd tensor_name (init_range_info tensor_init))
    range_dict

/-! ## Monotonic-function range propagation -/

/-- Execution context for a single-node evaluation: tensor name to value,
where a value of none models Python None. -/
abbrev Ctx := List (String × PyVal)

/-- Abstracted boundary executor execute_node: evaluates one node's operator
semantics, writing the node's outputs into the context. -/
abbrev Executor := Ctx → Ctx

/-- Output entries of the single-node execution context: every output maps
to a freshly allocated prototype tensor from its value-info. -/
def mk_out_ctx (model : Model) : List String → Ctx → Except String Ctx
  | [], c => .ok c
  | oname :: rest, c =>
    match model.get_tensor_valueinfo oname with
    | none => .error ("TypeError: missing value info for " ++ oname)
    | some sh => mk_out_ctx model rest (dictSet c oname (some (.arr (valueinfo_to_tensor sh))))

/-- Context construction for single-node execution: every node input maps to
its initializer (None for dynamic inputs), every output to a freshly
allocated prototype tensor. -/
def mk_node_ctx (model : Model) (node : Node) : Except String Ctx :=
  mk_out_ctx model node.output
    (node.input.foldl (fun c x => dictSet c x ((model.get_initializer x).map NPVal.arr)) [])

/-- Dynamic inputs of a node, in declaration order. -/
def dyn_inputs_of (node : Node) (model : Model) : List String :=
  node.input.filter (fun x => is_dyn_input x model)

/-- Min-max prototype vector for each dynamic input: its stored range,
shape-promoted against its own declared value-info. -/
def monotonic_protos (model : Model) (range_dict : RangeDict) :
    List String → Except String (List RPair)
  | [] => .ok []
  | inp :: rest =>
    match keyGet range_dict inp with
    | .error e => .error e
    | .ok ri =>
      match ri.range with
      | none => .error "TypeError: NoneType object is not subscriptable"
      | some irange =>
        match model.get_tensor_valueinfo inp with
        | none => .error ("TypeError: missing value info for " ++ inp)
        | some sh =>
          match promote_range_shape irange sh with
          | .error e => .error e
          | .ok p =>
            match monotonic_protos model range_dict rest with
            | .error e => .error e
            | .ok ps => .ok (p :: ps)

/-- Cartesian product of a list of lists (itertools.product), first factor
varying slowest. -/
def listProduct {α : Type} : List (List α) → List (List α)
  | [] => [[]]
  | l :: rest => l.flatMap (fun x => (listProduct rest).map (fun xs => x :: xs))

/-- Corner combinations of the proto vectors: Cartesian product of the
two-element (min, max) pairs. -/
def cornersOf (protos : List RPair) : List (List PyVal) :=
  listProduct (protos.map (fun p => [p.1, p.2]))

/-- Assignment of one corner combination into the context
(`ctx[dyn_inps[i]] = inps[i]`). -/
def setDyns (ctx : Ctx) (dyn_inps : List String) (inps : List PyVal) : Ctx :=
  (dyn_inps.zip inps).foldl (fun c xi => dictSet c xi.1 xi.2) ctx

/-- np.minimum lifted to possibly-None values; numpy rejects None operands. -/
def npMinimumPy (x y : PyVal) : Except String PyVal :=
  match x, y with
  | some a, some b =>
    match npBinopV min a b with
    | some r => .ok (some r)
    | none => .error "ValueError: operands could not be broadcast together"
  | _, _ => .error "TypeError: unsupported operand type: NoneType"

/-- np.maximum lifted to possibly-None values; numpy rejects None operands. -/
def npMaximumPy (x y : PyVal) : Except String PyVal :=
  match x, y with
  | some a, some b =>
    match npBinopV max a b with
    | some r => .ok (some r)
    | none => .error "ValueError: operands could not be broadcast together"
  | _, _ => .error "TypeError: unsupported operand type: NoneType"

/-- Update of the per-output running extreme after one corner evaluation:
`f(out, running) if running is not None else out` for each (output name,
running value) pair. -/
def updateRunning (f : PyVal → PyVal → Except String PyVal) (ctx : Ctx) :
    List (String × PyVal) → Except String (List PyVal)
  | [] => .ok []
  | (o, r) :: rest =>
    match keyGet ctx o with
    | .error e => .error e
    | .ok out =>
      match (if r.isSome then f out r else .ok out) with
      | .error e => .error e
      | .ok r2 =>
        match updateRunning f ctx rest with
        | .error e => .error e
        | .ok rs => .ok (r2 :: rs)

/-- Corner-enumeration loop of calc_monotonic_range: for each corner, write
the corner values into the (reused, mutated) context, invoke the executor,
and fold the running elementwise minima and maxima; the trace collects the
context each executor invocation was passed. -/
def monotonic_loop (execNode : Executor) (dyn_inps : List String) (outputs : List String) :
    List (List PyVal) → Ctx → List PyVal → List PyVal → List Ctx →
    Except String (Ctx × List PyVal × List PyVal × List Ctx)
  | [], ctx, rmin, rmax, trace => .ok (ctx, rmin, rmax, trace)
  | corner :: rest, ctx, rmin, rmax, trace =>
    match updateRunning npMinimumPy (execNode (setDyns ctx dyn_inps corner))
        (outputs.zip rmin) with
    | .error e => .error e
    | .ok rminNext =>
      match updateRunning npMaximumPy (execNode (setDyns ctx dyn_inps corner))
          (outputs.zip rmax) with
      | .error e => .error e
      | .ok rmaxNext =>
        monotonic_loop execNode dyn_inps outputs rest (execNode (setDyns ctx dyn_inps corner))
          rminNext rmaxNext (trace ++ [setDyns ctx dyn_inps corner])

/-- Assignment of the final running extremes to the outputs' range records,
over the zipped (output name, (min, max)) list. -/
def assign_out_ranges : List (String × PyVal × PyVal) → RangeDict → Except String RangeDict
  | [], rd => .ok rd
  | (oname, mn, mx) :: rest, rd =>
    match keyGet rd oname with
    | .error e => .error e
    | .ok ri => assign_out_ranges rest (dictSet rd oname { ri with range := some (mn, mx) })

/-- Assignment of the degenerate point ranges in the zero-dynamic-inputs
case: each output gets (value, value) from the single evaluation and the
is_initializer flag. -/
def degenerate_assign (ctxPost : Ctx) : List String → RangeDict → Except String RangeDict
  | [], rd => .ok rd
  | oname :: rest, rd =>
    match keyGet ctxPost oname with
    | .error e => .error e
    | .ok v =>
      match keyGet rd oname with
      | .error e => .error e
      | .ok ri =>
        degenerate_assign ctxPost rest
          (dictSet rd oname { ri with range := some (v, v), is_initializer := true })

/-- Range computation for monotonic functions by corner evaluation
(calc_monotonic_range); also returns the list of contexts the boundary
executor was invoked on. -/
def calc_monotonic_range (execNode : Executor) (model : Model) (node : Node)
    (range_dict : RangeDict) : Except String (RangeDict × List Ctx) :=
  match mk_node_ctx model node with
  | .error e => .error e
  | .ok ctx =>
    if (dyn_inputs_of node model).length = 0 then
      match degenerate_assign (execNode ctx) node.output range_dict with
      | .error e => .error e
      | .ok rd => .ok (rd, [ctx])
    else
      match monotonic_protos model range_dict (dyn_inputs_of node model) with
      | .error e => .error e
      | .ok protos =>
        match monotonic_loop execNode (dyn_inputs_of node model) node.output
            (cornersOf protos) ctx (node.output.map (fun _ => none))
            (node.output.map (fun _ => none)) [] with
        | .error e => .error e
        | .ok res =>
          match assign_out_ranges (node.output.zip (res.2.1.zip res.2.2.1)) range_dict with
          | .error e => .error e
          | .ok rd => .ok (rd, res.2.2.2)

/-- Running elementwise extreme with an explicit accumulator, mirroring the
per-corner update (`f(out, acc) if acc is not None else out`). -/
def runFoldAux (f : PyVal → PyVal → Except String PyVal) :
    PyVal → List PyVal → Except String PyVal
  | acc, [] => .ok acc
  | acc, out :: rest =>
    match (if acc.isSome then f out acc else .ok out) with
    | .error e => .error e
    | .ok acc2 => runFoldAux f acc2 rest

/-- Running elementwise extreme of a list of evaluation outputs, starting
from the unset (None) accumulator. -/
def runFoldPy (f : PyVal → PyVal → Except String PyVal) (evals : List PyVal) :
    Except String PyVal :=
  runFoldAux f none evals

/-! ## Interval matrix-multiplication range propagation -/

/-- Midpoint-radius decomposition of a range, specialized to the 1x1 (scalar)
case of range_to_midpoint_radius, in exact rational arithmetic. -/
def range_to_midpoint_radius (matrix_range : ℚ × ℚ) : ℚ × ℚ :=
  let midpoint := matrix_range.1 + (1/2) * (matrix_range.2 - matrix_range.1)
  (midpoint, midpoint - matrix_range.1)

/-- Midpoint-radius matrix-multiplication enclosure (calc_matmul_range),
specialized to 1x1 matrices where np.matmul is plain multiplication. -/
def calc_matmul_range (range_A range_B : ℚ × ℚ) : ℚ × ℚ :=
  let mrA := range_to_midpoint_radius range_A
  let mrB := range_to_midpoint_radius range_B
  let radius := mrA.2 * (|mrB.1| + mrB.2) + |mrA.1| * mrB.2
  let out_base := mrA.1 * mrB.1
  (out_base - radius, out_base + radius)

/-- Failure-raising view of a possibly-None Python value. -/
def fromPy (v : PyVal) : Except String NPVal :=
  match v with
  | some x => .ok x
  | none => .error "TypeError: unsupported operand type: NoneType"

/-- Failure-raising view of a numpy broadcast result. -/
def liftNp (x : Option NPVal) : Except String NPVal :=
  match x with
  | some v => .ok v
  | none => .error "ValueError: operands could not be broadcast together"

/-- Elementwise absolute value (np.abs). -/
def npAbsV : NPVal → NPVal
  | .scalar q => .scalar |q|
  | .arr a => .arr ⟨a.shape, a.data.map (fun q => |q|)⟩

/-- Midpoint-radius decomposition of a stored range pair on numpy values. -/
def range_to_midpoint_radius_np (matrix_range : RPair) : Except String (NPVal × NPVal) := do
  let matrix_min ← fromPy matrix_range.1
  let matrix_max ← fromPy matrix_range.2
  let diff ← liftNp (npBinopV (fun a b => a - b) matrix_max matrix_min)
  let half ← liftNp (npBinopV (fun a b => a * b) (.scalar (1/2)) diff)
  let midpoint ← liftNp (npBinopV (fun a b => a + b) matrix_min half)
  let radius ← liftNp (npBinopV (fun a b => a - b) midpoint matrix_min)
  .ok (midpoint, radius)

/-- Abstracted np.matmul (a third-party numpy primitive). -/
abbrev Matmul := NPVal → NPVal → Except String NPVal

/-- Midpoint-radius matmul enclosure on numpy values, with np.matmul
abstracted. -/
def calc_matmul_range_np (mm : Matmul) (range_A range_B : RPair) : Except String RPair := do
  let mrA ← range_to_midpoint_radius_np range_A
  let mrB ← range_to_midpoint_radius_np range_B
  let absB ← liftNp (npBinopV (fun a b => a + b) (npAbsV mrB.1) mrB.2)
  let t1 ← mm mrA.2 absB
  let t2 ← mm (npAbsV mrA.1) mrB.2
  let radius ← liftNp (npBinopV (fun a b => a + b) t1 t2)
  let out_base ← mm mrA.1 mrB.1
  let out_max ← liftNp (npBinopV (fun a b => a + b) out_base radius)
  let out_min ← liftNp (npBinopV (fun a b => a - b) out_base radius)
  .ok (some out_min, some out_max)

/-- Python list indexing, raising an IndexError when out of range. -/
def pyIndex {α : Type} (l : List α) (i : Nat) : Except String α :=
  match l[i]? with
  | some x => .ok x
  | none => .error "IndexError: list index out of range"

/-- MatMul node range propagation (calc_matmul_node_range). -/
def calc_matmul_node_range (mm : Matmul) (node : Node) (range_dict : RangeDict) :
    Except String RangeDict := do
  let in0 ← pyIndex node.input 0
  let in1 ← pyIndex node.input 1
  let riA ← keyGet range_dict in0
  let riB ← keyGet range_dict in1
  let range_A ← match riA.range with
    | some r => pure r
    | none => .error "TypeError: cannot unpack non-iterable NoneType"
  let range_B ← match riB.range with
    | some r => pure r
    | none => .error "TypeError: cannot unpack non-iterable NoneType"
  let out0 ← pyIndex node.output 0
  let riO ← keyGet range_dict out0
  let r ← calc_matmul_range_np mm range_A range_B
  .ok (dictSet range_dict out0 { riO with range := some r })

/-! ## Declared-datatype range propagation -/

/-- Output range from the inferred output datatype (calc_range_outdtype). -/
def calc_range_outdtype (node : Node) (model : Model) (range_dict : RangeDict) :
    Except String RangeDict := do
  let oname ← pyIndex node.output 0
  let odt ← match model.get_tensor_datatype oname with
    | some d => pure d
    | none => .error ("Cannot infer " ++ oname ++ " range, dtype is missing")
  let ri ← keyGet range_dict oname
  .ok (dictSet range_dict oname
    { ri with range := some (some (.scalar odt.min), some (.scalar odt.max)) })

/-! ## Operator dispatch table -/

/-- Propagation strategy selected by the dispatch table. -/
inductive CalcKind where
  | monotonic
  | matmul
  | outdtype
deriving DecidableEq

/-- Fixed mapping from operator type to range-calculation strategy. -/
def optype_to_range_calc : List (String × CalcKind) := [
  ("Transpose", .monotonic),
  ("MatMul", .matmul),
  ("QuantMaxNorm", .outdtype),
  ("Flatten", .monotonic),
  ("Reshape", .monotonic),
  ("Quant", .monotonic),
  ("BipolarQuant", .monotonic),
  ("Mul", .monotonic),
  ("Sub", .monotonic),
  ("Div", .monotonic),
  ("Add", .monotonic),
  ("BatchNormalization", .monotonic),
  ("Relu", .monotonic),
  ("Pad", .monotonic),
  ("AveragePool", .monotonic),
  ("Trunc", .monotonic),
  ("MaxPool", .monotonic),
  ("Resize", .monotonic),
  ("Upsample", .monotonic),
  ("GlobalAveragePool", .monotonic),
  ("QuantizeLinear", .monotonic),
  ("DequantizeLinear", .monotonic),
  ("Clip", .monotonic),
  ("Sigmoid", .monotonic),
  ("Concat", .monotonic),
  ("Split", .monotonic),
  ("Im2Col", .monotonic)]

/-! ## Boundary-library collaborator -/

/-- Bundle of the boundary library functions (graph rewrites, model loading,
the node executor, np.matmul, and pretty-printing) the orchestrator
delegates to. -/
structure Boundary where
  loadModel : String → Model
  cleanup_model : Model → Model
  cleanup_model_default : Model → Model
  lower_convs : Model → Model
  gemm_to_matmul : Model → Model
  infer_shapes : Model → Model
  fold_constants : Model → Model
  infer_datatypes : Model → Model
  eval_irange : String → PyVal × PyVal
  execute_node : Node → Executor
  np_matmul : Matmul
  pformat_ranges : RangeDict → String
  pformat_stuck : List (String × List (Nat × ℚ)) → String
  pformat_zerostuck : List (String × List Nat) → String

/-- Invocation of the dispatched range-calculation strategy. -/
def apply_range_calc (B : Boundary) (model : Model) :
    CalcKind → Node → RangeDict → Except String RangeDict
  | .monotonic, node, rd =>
    (calc_monotonic_range (B.execute_node node) model node rd).map (fun p => p.1)
  | .matmul, node, rd => calc_matmul_node_range B.np_matmul node rd
  | .outdtype, node, rd => calc_range_outdtype node model rd

/-! ## Graph walk -/

/-- Skip warning naming the node, its operator type and which precondition
failed (range availability vs. operator support). -/
structure SkipWarning where
  node_name : String
  inprange_ok : Bool
  op_type : String
  op_ok : Bool
deriving DecidableEq

/-- Whether every dynamic input of the node already has a range entry. -/
def node_inprange_ok (node : Node) (model : Model) (rd : RangeDict) : Bool :=
  (dyn_inputs_of node model).all (fun x => (dictGet rd x).isSome)

/-- Whether the node's operator type has a dispatch-table entry. -/
def node_op_ok (node : Node) : Bool :=
  (dictGet optype_to_range_calc node.op_type).isSome

/-- Walk of the graph nodes in declaration order, dispatching supported
nodes and skipping unsupported or under-ranged ones with a warning. -/
def walk_nodes (B : Boundary) (model : Model) :
    List Node → RangeDict → List SkipWarning → Except String (RangeDict × List SkipWarning)
  | [], rd, warnings => .ok (rd, warnings)
  | node :: rest, rd, warnings =>
    let inprange_ok := node_inprange_ok node model rd
    let op_ok := node_op_ok node
    match dictGet optype_to_range_calc node.op_type with
    | some range_calc_fxn =>
      if inprange_ok then
        match
          (do
            let rd1 := node.output.foldl (fun d o => dictSet d o {}) rd
            let rd2 ← apply_range_calc B model range_calc_fxn node rd1
            node.output.foldlM
              (fun d o => do
                let ri ← keyGet d o
                let out_vi ← match model.get_tensor_valueinfo o with
                  | some sh => pure sh
                  | none => .error ("TypeError: missing value info for " ++ o)
                let r ← match ri.range with
                  | some r => pure r
                  | none => .error "TypeError: NoneType object is not subscriptable"
                let promoted ← promote_range_shape r out_vi
                pure (dictSet d o { ri with range := some promoted }))
              rd2 : Except String RangeDict)
        with
        | .error e => .error e
        | .ok rd3 => walk_nodes B model rest rd3 warnings
      else
        walk_nodes B model rest rd (warnings ++ [⟨node.name, inprange_ok, node.op_type, op_ok⟩])
    | none =>
      walk_nodes B model rest rd (warnings ++ [⟨node.name, inprange_ok, node.op_type, op_ok⟩])

/-! ## Orchestrator -/

/-- Report modes. -/
def REPORT_MODE_RANGE : String := "range"

/-- Stuck-channel report mode. -/
def REPORT_MODE_STUCKCHANNEL : String := "stuck_channel"

/-- Zero-stuck-channel report mode. -/
def REPORT_MODE_ZEROSTUCKCHANNEL : String := "zerostuck_channel"

/-- Accepted report modes. -/
def report_modes : List String :=
  [REPORT_MODE_RANGE, REPORT_MODE_STUCKCHANNEL, REPORT_MODE_ZEROSTUCKCHANNEL]

/-- Report returned by the orchestrator: a range table, a stuck-channel
table, a zero-stuck channel table, or a pretty-printed rendering. -/
inductive Report where
  | ranges (d : RangeDict)
  | stuck (d : List (String × List (Nat × ℚ)))
  | zerostuck (d : List (String × List Nat))
  | pretty (s : String)
deriving DecidableEq

/-- Substring test on character lists (Python `needle in hay` on strings). -/
def charsStartWith : List Char → List Char → Bool
  | [], _ => true
  | _ :: _, [] => false
  | a :: as, b :: bs => a == b && charsStartWith as bs

/-- Containment of a needle anywhere in the haystack. -/
def charsContain : List Char → List Char → Bool
  | [], needle => needle.isEmpty
  | hay@(_ :: rest), needle => charsStartWith needle hay || charsContain rest needle

/-- Python substring containment `needle in hay`. -/
def strContainsSub (hay needle : String) : Bool :=
  charsContain hay.data needle.data

/-- Key filtering of a report: only keep tensors where the filter appears in
the name. -/
def Report.filter_keys (key_filter : String) : Report → Report
  | .ranges d => .ranges (d.filter (fun kv => strContainsSub kv.1 key_filter))
  | .stuck d => .stuck (d.filter (fun kv => strContainsSub kv.1 key_filter))
  | .zerostuck d => .zerostuck (d.filter (fun kv => strContainsSub kv.1 key_filter))
  | .pretty s => .pretty s

/-- Zero-stuck reduction: only leave channels that are stuck at zero,
dropping tensors without such a channel and the per-value detail. -/
def Report.zerostuck_reduce : Report → Report
  | .stuck d =>
    .zerostuck (((d.map (fun kv =>
        (kv.1, ((kv.2.filter (fun x => x.2 == 0)).map (fun x => x.1)).dedup))).filter
      (fun kv => kv.2.length > 0)))
  | r => r

/-- Pretty-printed rendering of a report through the boundary pformat. -/
def Report.render (B : Boundary) : Report → String
  | .ranges d => B.pformat_ranges d
  | .stuck d => B.pformat_stuck d
  | .zerostuck d => B.pformat_zerostuck d
  | .pretty s => s

/-- Initial input-range argument of the orchestrator: a string (empty or a
textual literal), a (min, max) tuple, a pre-built RangeInfo, or a value of
any other, unrecognized type. -/
inductive IRangeArg where
  | str (s : String)
  | tup (range_min range_max : PyVal)
  | rinfo (ri : RangeInfo)
  | other

/-- Resolution result of the irange argument. -/
inductive ResolvedIRange where
  | fromBounds (range_min range_max : PyVal)
  | fromRangeInfo (ri : RangeInfo)

/-- Resolution of the irange argument; the non-empty string case delegates
the textual-literal evaluation (and list-to-array conversion) to the
boundary. -/
def resolve_irange (B : Boundary) (irange : IRangeArg) : Except String ResolvedIRange :=
  match irange with
  | .str s =>
    if s = "" then .ok (.fromBounds none none)
    else
      let p := B.eval_irange s
      .ok (.fromBounds p.1 p.2)
  | .tup range_min range_max => .ok (.fromBounds range_min range_max)
  | .rinfo ri => .ok (.fromRangeInfo ri)
  | .other => .error "Unknown irange type"

/-- Loop step of the input seeding: a supplied RangeInfo is used verbatim;
otherwise, when either of the carried (range_min, range_max) is None, both
are (re)derived from this input's datatype annotation or the MissingData
assertion fires; the input is then recorded with the carried bounds. -/
def seed_input_step (model : Model) (resolved : ResolvedIRange)
    (st : (PyVal × PyVal) × RangeDict) (iname : String) :
    Except String ((PyVal × PyVal) × RangeDict) :=
  match resolved with
  | .fromRangeInfo ri => .ok (st.1, dictSet st.2 iname ri)
  | .fromBounds _ _ =>
    if st.1.1.isNone || st.1.2.isNone then
      match model.get_tensor_datatype iname with
      | none => .error "Could not infer irange, please specify"
      | some idt =>
        .ok ((some (.scalar idt.min), some (.scalar idt.max)),
          dictSet st.2 iname
            { range := some (some (.scalar idt.min), some (.scalar idt.max)) })
    else .ok (st.1, dictSet st.2 iname { range := some st.1 })

/-- Loop of the input seeding over the graph inputs in order, carrying the
(range_min, range_max) state. -/
def seed_input_loop (model : Model) (resolved : ResolvedIRange) :
    List String → (PyVal × PyVal) → RangeDict → Except String ((PyVal × PyVal) × RangeDict)
  | [], st, rd => .ok (st, rd)
  | iname :: rest, st, rd =>
    match seed_input_step model resolved (st, rd) iname with
    | .error e => .error e
    | .ok st2 => seed_input_loop model resolved rest st2.1 st2.2

/-- Seeding of the range table for the graph inputs, mirroring the loop in
range_analysis: the (range_min, range_max) state resolved before the loop is
carried across the inputs by seed_input_step. -/
def seed_input_ranges (model : Model) (resolved : ResolvedIRange) : Except String RangeDict :=
  let init : PyVal × PyVal :=
    match resolved with
    | .fromBounds range_min range_max => (range_min, range_max)
    | .fromRangeInfo _ => (none, none)
  match seed_input_loop model resolved model.graph_input init [] with
  | .error e => .error e
  | .ok st => .ok st.2

/-- Effects on the model performed by the orchestrator before and during
graph preparation, recorded in order. -/
inductive Event where
  | load (path : String)
  | cleanup
  | lower_convs
  | gemm_to_matmul
  | cleanup_after_lowering
  | infer_shapes
  | fold_constants
  | infer_datatypes
  | save (path : String)
deriving DecidableEq

/-- Report assembly tail of range_analysis: select the base table (the
stuck-channel table for either stuck mode, the range table otherwise, with
initializers optionally stripped), apply the key filter twice, reduce to
zero-stuck channels in that mode, and optionally pretty-print. -/
def assemble_report (B : Boundary) (key_filter report_mode : String)
    (prettyprint strip_initializers_from_report : Bool)
    (range_dict : RangeDict) (stuck_chans : List (String × List (Nat × ℚ))) : Report :=
  let ret0 : Report :=
    if report_mode = REPORT_MODE_ZEROSTUCKCHANNEL
        || report_mode = REPORT_MODE_STUCKCHANNEL then
      .stuck stuck_chans
    else
      .ranges (if strip_initializers_from_report then
        range_dict.filter (fun kv => !kv.2.is_initializer) else range_dict)
  let ret1 := if key_filter != "" then ret0.filter_keys key_filter else ret0
  let ret2 := if key_filter != "" then ret1.filter_keys key_filter else ret1
  let ret3 :=
    if report_mode = REPORT_MODE_RANGE then ret2
    else if report_mode = REPORT_MODE_ZEROSTUCKCHANNEL then ret2.zerostuck_reduce
    else ret2
  if prettyprint then Report.pretty (ret3.render B) else ret3

/-- Preparation stages of range_analysis: model resolution, irange
resolution, the graph-rewrite chain, input seeding, initializer seeding and
the node walk, paired with the trace of boundary effects performed. -/
def range_analysis_prepare (B : Boundary) (model_arg : Sum String Model) (irange : IRangeArg)
    (save_modified_model : String) (lower_ops do_cleanup : Bool) :
    Except String (RangeDict × List SkipWarning) × List Event :=
  let (model0, ev0) :=
    match model_arg with
    | .inl path => (B.loadModel path, [Event.load path])
    | .inr m => (m, [])
  match resolve_irange B irange with
  | .error e => (.error e, ev0)
  | .ok resolved =>
    let (model1, ev1) :=
      if do_cleanup then (B.cleanup_model model0, ev0 ++ [Event.cleanup]) else (model0, ev0)
    let (model2, ev2) :=
      if lower_ops then
        (B.cleanup_model_default (B.gemm_to_matmul (B.lower_convs model1)),
         ev1 ++ [Event.lower_convs, Event.gemm_to_matmul, Event.cleanup_after_lowering])
      else (model1, ev1)
    let model3 := B.infer_datatypes (B.fold_constants (B.infer_shapes model2))
    let ev3 := ev2 ++ [Event.infer_shapes, Event.fold_constants, Event.infer_datatypes]
    let ev4 := if save_modified_model != "" then ev3 ++ [Event.save save_modified_model] else ev3
    match seed_input_ranges model3 resolved with
    | .error e => (.error e, ev4)
    | .ok rd0 =>
      let rd1 := calc_range_all_initializers model3 rd0
      (walk_nodes B model3 model3.graph_node rd1 [], ev4)

/-- Body of range_analysis after the report-mode entry check: the
preparation stages followed by report assembly. -/
def range_analysis_body (B : Boundary) (model_arg : Sum String Model) (irange : IRangeArg)
    (key_filter save_modified_model report_mode : String)
    (lower_ops prettyprint do_cleanup strip_initializers_from_report : Bool) :
    Except String Report × List Event :=
  match range_analysis_prepare B model_arg irange save_modified_model lower_ops do_cleanup with
  | (.error e, ev) => (.error e, ev)
  | (.ok (range_dict, _warnings), ev) =>
    (.ok (assemble_report B key_filter report_mode prettyprint
      strip_initializers_from_report range_dict []), ev)

/-- Orchestrator range_analysis: the report-mode entry check guards the
whole body; an unrecognized mode fails before any effect is performed. -/
def range_analysis (B : Boundary) (model_arg : Sum String Model) (irange : IRangeArg)
    (key_filter save_modified_model report_mode : String)
    (lower_ops prettyprint do_cleanup strip_initializers_from_report : Bool) :
    Except String Report × List Event :=
  if report_modes.contains report_mode then
    range_analysis_body B model_arg irange key_filter save_modified_model report_mode
      lower_ops prettyprint do_cleanup strip_initializers_from_report
  else
    (.error "Unrecognized report_mode, must be range, stuck_channel, zerostuck_channel", [])

/-! ## Dict lemmas -/

theorem dictGet_nil {α : Type} (k : String) : dictGet ([] : List (String × α)) k = none := rfl

theorem dictGet_cons {α : Type} (kv : String × α) (d : List (String × α)) (k : String) :
    dictGet (kv :: d) k = if kv.1 = k then some kv.2 else dictGet d k := by
  by_cases h : kv.1 = k
  · rw [if_pos h]
    unfold dictGet
    rw [List.find?_cons_of_pos _ (by simpa using h)]
    rfl
  · rw [if_neg h]
    unfold dictGet
    rw [List.find?_cons_of_neg _ (by simpa using h)]

theorem dictGet_map_set {α : Type} (d : List (String × α)) (k : String) (v : α) :
    dictGet (d.map (fun kv => if kv.1 == k then (k, v) else kv)) k
      = (dictGet d k).map (fun _ => v) := by
  induction d with
  | nil => rfl
  | cons kv rest ih =>
    by_cases h : kv.1 = k
    · simp [List.map_cons, dictGet_cons, h]
    · simpa [List.map_cons, dictGet_cons, h] using ih

theorem dictGet_map_set_ne {α : Type} (d : List (String × α)) (k t : String) (v : α)
    (h : t ≠ k) :
    dictGet (d.map (fun kv => if kv.1 == k then (k, v) else kv)) t = dictGet d t := by
  induction d with
  | nil => rfl
  | cons kv rest ih =>
    by_cases hk : kv.1 = k
    · have ht : ¬kv.1 = t := by rw [hk]; exact fun hc => h hc.symm
      have ht2 : ¬k = t := fun hc => h hc.symm
      simpa [List.map_cons, dictGet_cons, hk, ht, ht2] using ih
    · by_cases ht : kv.1 = t
      · simp [List.map_cons, dictGet_cons, hk, ht, h]
      · simpa [List.map_cons, dictGet_cons, hk, ht] using ih

theorem dictGet_append_single {α : Type} (d : List (String × α)) (k : String) (v : α) :
    dictGet (d ++ [(k, v)]) k = some ((dictGet d k).getD v) := by
  induction d with
  | nil => simp [dictGet_cons, dictGet_nil]
  | cons kv rest ih =>
    by_cases h : kv.1 = k
    · simp [List.cons_append, dictGet_cons, h]
    · simpa [List.cons_append, dictGet_cons, h] using ih

theorem dictGet_append_single_ne {α : Type} (d : List (String × α)) (k t : String) (v : α)
    (h : t ≠ k) : dictGet (d ++ [(k, v)]) t = dictGet d t := by
  induction d with
  | nil =>
    have hkt : ¬k = t := fun hc => h hc.symm
    simp [dictGet_cons, dictGet_nil, hkt]
  | cons kv rest ih =>
    by_cases ht : kv.1 = t
    · simp [List.cons_append, dictGet_cons, ht]
    · simpa [List.cons_append, dictGet_cons, ht] using ih

theorem dictGet_isSome_iff_any {α : Type} (d : List (String × α)) (k : String) :
    (dictGet d k).isSome = d.any (fun kv => kv.1 == k) := by
  induction d with
  | nil => rfl
  | cons kv rest ih =>
    by_cases h : kv.1 = k
    · simp [dictGet_cons, h]
    · have hb : (kv.1 == k) = false := by simpa using h
      simpa [dictGet_cons, h, hb] using ih

theorem dictGet_dictSet_self {α : Type} (d : List (String × α)) (k : String) (v : α) :
    dictGet (dictSet d k v) k = some v := by
  unfold dictSet
  by_cases h : d.any (fun kv => kv.1 == k)
  · rw [if_pos h, dictGet_map_set]
    have hs : (dictGet d k).isSome = true := by rw [dictGet_isSome_iff_any]; exact h
    rcases Option.isSome_iff_exists.mp hs with ⟨w, hw⟩
    rw [hw]; rfl
  · rw [if_neg h, dictGet_append_single]
    have hs : dictGet d k = none := by
      cases hd : dictGet d k with
      | none => rfl
      | some w => exact absurd (by rw [← dictGet_isSome_iff_any, hd]; rfl) h
    rw [hs]
    rfl

theorem dictGet_dictSet_ne {α : Type} (d : List (String × α)) (k t : String) (v : α)
    (h : t ≠ k) : dictGet (dictSet d k v) t = dictGet d t := by
  unfold dictSet
  by_cases hany : d.any (fun kv => kv.1 == k)
  · rw [if_pos hany]
    exact dictGet_map_set_ne d k t v h
  · rw [if_neg hany]
    exact dictGet_append_single_ne d k t v h

/-! ## Index and broadcasting lemmas -/

theorem shapeSize_cons (d : Nat) (s : List Nat) : shapeSize (d :: s) = d * shapeSize s := by
  simp [shapeSize]

theorem unflattenIdx_length (s : List Nat) (i : Nat) : (unflattenIdx s i).length = s.length := by
  induction s generalizing i with
  | nil => rfl
  | cons d rest ih => simp [unflattenIdx, ih]

theorem projIdx_eq_zipWith (s m : List Nat) (h : m.length = s.length) :
    projIdx s m = List.zipWith (fun d x => if d = 1 then 0 else x) s m := by
  simp [projIdx, h]

theorem flattenIdx_projIdx_unflattenIdx (s : List Nat) (i : Nat) (h : i < shapeSize s) :
    flattenIdx s (projIdx s (unflattenIdx s i)) = i := by
  induction s generalizing i with
  | nil =>
    have h0 : i = 0 := Nat.lt_one_iff.mp h
    subst h0
    rfl
  | cons d rest ih =>
    rcases Nat.eq_zero_or_pos (shapeSize rest) with h0 | h0
    · rw [shapeSize_cons, h0, Nat.mul_zero] at h
      exact absurd h (Nat.not_lt_zero i)
    · have hmod : i % shapeSize rest < shapeSize rest := Nat.mod_lt _ h0
      have hlen : (unflattenIdx rest (i % shapeSize rest)).length = rest.length :=
        unflattenIdx_length rest _
      rw [unflattenIdx]
      rw [projIdx_eq_zipWith _ _ (by simp [hlen])]
      rw [List.zipWith_cons_cons]
      rw [flattenIdx]
      rw [← projIdx_eq_zipWith _ _ hlen]
      rw [ih _ hmod]
      by_cases hd : d = 1
      · have hi : i < shapeSize rest := by
          rw [shapeSize_cons, hd, Nat.one_mul] at h
          exact h
        rw [if_pos hd, Nat.zero_mul, Nat.zero_add]
        exact Nat.mod_eq_of_lt hi
      · rw [if_neg hd, Nat.mul_comm]
        exact Nat.div_add_mod i (shapeSize rest)

theorem atIdx_unflattenIdx (a : NDArray) (i : Nat) (hi : i < shapeSize a.shape) :
    a.atIdx (unflattenIdx a.shape i) = a.data.getD i 0 := by
  unfold NDArray.atIdx
  rw [flattenIdx_projIdx_unflattenIdx a.shape i hi]

theorem getD_map_range (n : Nat) (f : Nat → ℚ) (i : Nat) (hi : i < n) :
    (((List.range n).map f).getD i 0) = f i := by
  rw [List.getD_eq_getElem?_getD, List.getElem?_map, List.getElem?_range hi]
  rfl

theorem broadcastDim_self (a : Nat) : broadcastDim a a = some a := by
  simp [broadcastDim]

theorem broadcastDim_one_left (b : Nat) : broadcastDim 1 b = some b := by
  unfold broadcastDim
  by_cases h : (1 : Nat) = b
  · rw [if_pos h, h]
  · rw [if_neg h, if_pos rfl]

theorem broadcastDim_one_right (a : Nat) : broadcastDim a 1 = some a := by
  unfold broadcastDim
  by_cases h : a = 1
  · rw [if_pos h, h]
  · rw [if_neg h, if_neg h, if_pos rfl]

theorem broadcastRev_self (s : List Nat) : broadcastRev s s = some s := by
  induction s with
  | nil => rfl
  | cons a rest ih => simp [broadcastRev, broadcastDim_self, ih]

theorem broadcastShapes_self (s : List Nat) : broadcastShapes s s = some s := by
  simp [broadcastShapes, broadcastRev_self]

theorem broadcastShapes_onedim_left (s : List Nat) :
    broadcastShapes [1] s = some (if s = [] then [1] else s) := by
  rcases List.eq_nil_or_concat s with rfl | ⟨t, b, rfl⟩
  · rfl
  · simp only [List.concat_eq_append]
    have hne : t ++ [b] ≠ [] := by simp
    rw [if_neg hne]
    simp [broadcastShapes, broadcastRev, broadcastDim_one_left]

theorem broadcastShapes_onedim_right (s : List Nat) :
    broadcastShapes s [1] = some (if s = [] then [1] else s) := by
  rcases List.eq_nil_or_concat s with rfl | ⟨t, b, rfl⟩
  · rfl
  · simp only [List.concat_eq_append]
    have hne : t ++ [b] ≠ [] := by simp
    rw [if_neg hne]
    cases hrev : (t ++ [b]).reverse with
    | nil => simp at hrev
    | cons x xs =>
      have hbr : broadcastRev xs [] = some xs := by cases xs <;> rfl
      have h2 : xs.reverse ++ [x] = t ++ [b] := by
        have h3 := congrArg List.reverse hrev
        simp at h3
        exact h3.symm
      simp [broadcastShapes, hrev, broadcastRev, broadcastDim_one_right, hbr, h2]

theorem atIdx_one_elem (q : ℚ) (m : List Nat) (hm : m ≠ []) :
    NDArray.atIdx ⟨[1], [q]⟩ m = q := by
  have hpos : 1 ≤ m.length := List.length_pos.mpr hm
  have hlen : (m.drop (m.length - 1)).length = 1 := by
    rw [List.length_drop]
    omega
  obtain ⟨y, hy⟩ := List.length_eq_one.mp hlen
  unfold NDArray.atIdx projIdx
  simp only [List.length_singleton]
  rw [hy]
  simp [flattenIdx]

theorem npBinop_eq_some (f : ℚ → ℚ → ℚ) (a b : NDArray) (u : List Nat)
    (h : broadcastShapes a.shape b.shape = some u) :
    npBinop f a b = some ⟨u, (List.range (shapeSize u)).map
      (fun i => f (a.atIdx (unflattenIdx u i)) (b.atIdx (unflattenIdx u i)))⟩ := by
  unfold npBinop
  rw [h]

theorem wf_map_range_atIdx (u : List Nat) (g : Nat → ℚ) (i : Nat) (hi : i < shapeSize u) :
    NDArray.atIdx ⟨u, (List.range (shapeSize u)).map g⟩ (unflattenIdx u i) = g i := by
  rw [atIdx_unflattenIdx ⟨u, (List.range (shapeSize u)).map g⟩ i hi]
  exact getD_map_range _ g i hi

theorem unflattenIdx_ne_nil (u : List Nat) (hu : u ≠ []) (i : Nat) :
    unflattenIdx u i ≠ [] := by
  intro hnil
  apply hu
  have hl := unflattenIdx_length u i
  rw [hnil] at hl
  exact List.eq_nil_of_length_eq_zero hl.symm

theorem npBinopV_arr_arr (f : ℚ → ℚ → ℚ) (a b : NDArray) :
    npBinopV f (.arr a) (.arr b) = (npBinop f a b).map NPVal.arr := rfl

/-- Array of elementwise products of the one-array with c over the broadcast
shape U (proof-infrastructure shorthand). -/
def mulOneArr (c : NDArray) (U : List Nat) : NDArray :=
  ⟨U, (List.range (shapeSize U)).map
    (fun i => NDArray.atIdx ⟨[1], [1]⟩ (unflattenIdx U i) * NDArray.atIdx c (unflattenIdx U i))⟩

/-- Array adding the zero-array to mulOneArr (proof-infrastructure shorthand). -/
def mulOneAddZeroArr (c : NDArray) (U : List Nat) : NDArray :=
  ⟨U, (List.range (shapeSize U)).map
    (fun i => NDArray.atIdx (mulOneArr c U) (unflattenIdx U i)
      + NDArray.atIdx ⟨[1], [0]⟩ (unflattenIdx U i))⟩

theorem scale_bias_identity_aux (c : NDArray) (U : List Nat) (hUne : U ≠ [])
    (hU1 : broadcastShapes [1] c.shape = some U)
    (hU2 : broadcastShapes U [1] = some U)
    (hU3 : broadcastShapes U c.shape = some U) :
    ∃ v w, npBinopV (fun a b => a * b) (.arr ⟨[1], [1]⟩) (.arr c) = some v
      ∧ npBinopV (fun a b => a + b) v (.arr ⟨[1], [0]⟩) = some w
      ∧ npEqAll w (.arr c) = true := by
  have e1 : npBinopV (fun a b => a * b) (.arr ⟨[1], [1]⟩) (.arr c)
      = some (.arr (mulOneArr c U)) := by
    rw [npBinopV_arr_arr, npBinop_eq_some _ _ _ U hU1]
    rfl
  have e2 : npBinopV (fun a b => a + b) (.arr (mulOneArr c U)) (.arr ⟨[1], [0]⟩)
      = some (.arr (mulOneAddZeroArr c U)) := by
    rw [npBinopV_arr_arr, npBinop_eq_some _ _ _ U hU2]
    rfl
  have e3 : npEqAll (.arr (mulOneAddZeroArr c U)) (.arr c) = true := by
    unfold npEqAll
    rw [npBinopV_arr_arr, npBinop_eq_some _ _ _ U hU3]
    simp only [Option.map_some']
    rw [List.all_eq_true]
    intro x hx
    simp only [NPVal.toND] at hx
    rw [List.mem_map] at hx
    obtain ⟨i, hi, rfl⟩ := hx
    rw [List.mem_range] at hi
    have h1 : NDArray.atIdx ⟨[1], [1]⟩ (unflattenIdx U i) = 1 :=
      atIdx_one_elem 1 _ (unflattenIdx_ne_nil U hUne i)
    have h0 : NDArray.atIdx ⟨[1], [0]⟩ (unflattenIdx U i) = 0 :=
      atIdx_one_elem 0 _ (unflattenIdx_ne_nil U hUne i)
    simp only [mulOneAddZeroArr]
    simp only [wf_map_range_atIdx U _ i hi]
    simp only [mulOneArr]
    simp only [wf_map_range_atIdx U _ i hi]
    simp only [h1, h0, one_mul, add_zero]
    simp
  exact ⟨_, _, e1, e2, e3⟩

theorem scale_bias_identity (c : NDArray) :
    ∃ v w, npBinopV (fun a b => a * b) (.arr ⟨[1], [1]⟩) (.arr c) = some v
      ∧ npBinopV (fun a b => a + b) v (.arr ⟨[1], [0]⟩) = some w
      ∧ npEqAll w (.arr c) = true := by
  by_cases hc : c.shape = []
  · refine scale_bias_identity_aux c [1] (by simp) ?_ ?_ ?_
    · rw [hc]
      rfl
    · rfl
    · rw [hc]
      rfl
  · refine scale_bias_identity_aux c c.shape hc ?_ ?_ ?_
    · rw [broadcastShapes_onedim_left, if_neg hc]
    · rw [broadcastShapes_onedim_right, if_neg hc]
    · exact broadcastShapes_self c.shape

/-! ## Initializer-seeding fold lemmas -/

theorem dictGet_init_fold_not_mem (model : Model) (names : List String) (d : RangeDict)
    (t : String) (hnot : t ∉ names) :
    dictGet (names.foldl (fun rd n =>
      match model.get_initializer n with
      | none => rd
      | some c => dictSet rd n (init_range_info c)) d) t = dictGet d t := by
  induction names generalizing d with
  | nil => rfl
  | cons n ns ih =>
    have hne : t ≠ n := fun hc => hnot (hc ▸ List.mem_cons_self n ns)
    rw [List.foldl_cons]
    rw [ih _ (fun hc => hnot (List.mem_cons_of_mem _ hc))]
    cases hf : model.get_initializer n with
    | none => rfl
    | some w => exact dictGet_dictSet_ne d n t _ hne

theorem dictGet_init_fold_mem (model : Model) (names : List String) (d : RangeDict)
    (t : String) (c : NDArray) (hmem : t ∈ names)
    (hinit : model.get_initializer t = some c) :
    dictGet (names.foldl (fun rd n =>
      match model.get_initializer n with
      | none => rd
      | some c => dictSet rd n (init_range_info c)) d) t = some (init_range_info c) := by
  induction names generalizing d with
  | nil => cases hmem
  | cons n ns ih =>
    by_cases hin : t ∈ ns
    · rw [List.foldl_cons]
      exact ih _ hin
    · have ht : t = n := by
        rcases List.mem_cons.mp hmem with h | h
        · exact h
        · exact absurd h hin
      subst ht
      rw [List.foldl_cons]
      simp only [hinit]
      rw [dictGet_init_fold_not_mem model ns _ t hin]
      exact dictGet_dictSet_self d t _

theorem dictGet_calc_range_all_initializers (model : Model) (d : RangeDict)
    (t : String) (c : NDArray) (hmem : t ∈ model.all_tensor_names)
    (hinit : model.get_initializer t = some c) :
    dictGet (calc_range_all_initializers model d) t = some (init_range_info c) :=
  dictGet_init_fold_mem model model.all_tensor_names d t c hmem hinit

/-! ## Claim C6 -/

/-- C6: Initializer seeding creates, for every tensor in the graph that has a
registered constant value, a RangeInfo with range equal to the degenerate
pair (constant, constant) and is_initializer = true; exactly when every
element of the constant satisfies value modulo 1 equal to 0, it additionally
sets int_range = (constant, constant), scale = 1.0 and bias = 0.0, so that
range = scale * int_range + bias holds elementwise. -/
theorem C6_initializer_seeding (model : Model) (rd0 : RangeDict) (t : String) (c : NDArray)
    (hmem : t ∈ model.all_tensor_names)
    (hinit : model.get_initializer t = some c) :
    ∃ ri, dictGet (calc_range_all_initializers model rd0) t = some ri
      ∧ ri.range = some (some (.arr c), some (.arr c))
      ∧ ri.is_initializer = true
      ∧ (npAllIntegral c = true →
          ri.int_range = some (some (.arr c), some (.arr c))
          ∧ ri.scale = some (.arr ⟨[1], [1]⟩)
          ∧ ri.bias = some (.arr ⟨[1], [0]⟩)
          ∧ ri.has_integer_info = true
          ∧ ∃ v w, npBinopV (fun a b => a * b) (.arr ⟨[1], [1]⟩) (.arr c) = some v
              ∧ npBinopV (fun a b => a + b) v (.arr ⟨[1], [0]⟩) = some w
              ∧ npEqAll w (.arr c) = true)
      ∧ (npAllIntegral c = false →
          ri.int_range = none ∧ ri.scale = none ∧ ri.bias = none
          ∧ ri.has_integer_info = false) := by
  refine ⟨init_range_info c, dictGet_calc_range_all_initializers model rd0 t c hmem hinit,
    ?_, ?_, ?_, ?_⟩
  · by_cases h : npAllIntegral c <;> simp [init_range_info, h]
  · by_cases h : npAllIntegral c <;> simp [init_range_info, h]
  · intro h
    simp [init_range_info, h, RangeInfo.has_integer_info]
    obtain ⟨v, w, h1, h2, h3⟩ := scale_bias_identity c
    exact ⟨v, h1, w, h2, h3⟩
  · intro h
    simp [init_range_info, h, RangeInfo.has_integer_info]

/-- Concrete single-initializer model used by the C6 witness. -/
def witModelC6 : Model :=
  { graph_input := []
    graph_node := []
    all_tensor_names := ["w"]
    get_initializer := fun n => if n = "w" then some ⟨[2], [2, 3]⟩ else none
    get_tensor_valueinfo := fun _ => none
    get_tensor_datatype := fun _ => none }

theorem C6_initializer_seeding_witness :
    "w" ∈ witModelC6.all_tensor_names
    ∧ witModelC6.get_initializer "w" = some ⟨[2], [2, 3]⟩
    ∧ (∃ ri, dictGet (calc_range_all_initializers witModelC6 []) "w" = some ri
      ∧ ri.range = some (some (.arr ⟨[2], [2, 3]⟩), some (.arr ⟨[2], [2, 3]⟩))
      ∧ ri.is_initializer = true
      ∧ (npAllIntegral ⟨[2], [2, 3]⟩ = true →
          ri.int_range = some (some (.arr ⟨[2], [2, 3]⟩), some (.arr ⟨[2], [2, 3]⟩))
          ∧ ri.scale = some (.arr ⟨[1], [1]⟩)
          ∧ ri.bias = some (.arr ⟨[1], [0]⟩)
          ∧ ri.has_integer_info = true
          ∧ ∃ v w, npBinopV (fun a b => a * b) (.arr ⟨[1], [1]⟩) (.arr ⟨[2], [2, 3]⟩) = some v
              ∧ npBinopV (fun a b => a + b) v (.arr ⟨[1], [0]⟩) = some w
              ∧ npEqAll w (.arr ⟨[2], [2, 3]⟩) = true)
      ∧ (npAllIntegral ⟨[2], [2, 3]⟩ = false →
          ri.int_range = none ∧ ri.scale = none ∧ ri.bias = none
          ∧ ri.has_integer_info = false)) :=
  ⟨by simp [witModelC6], by simp [witModelC6],
    C6_initializer_seeding witModelC6 [] "w" ⟨[2], [2, 3]⟩ (by simp [witModelC6])
      (by simp [witModelC6])⟩

/-! ## Claim C7 -/

/-- Whether a range bound is shaped exactly as a declared shape: an ndarray
of exactly that shape, or a Python scalar for the rank-0 shape. -/
def boundHasShape : PyVal → List Nat → Bool
  | some (.arr a), s => a.shape == s
  | some (.scalar _), s => s == []
  | none, _ => false

/-- Shape of a possibly-None bound (the empty shape for None, whose
promotion raises before any shape is consulted). -/
def pyValShape : PyVal → List Nat
  | some v => v.toND.shape
  | none => []

/-- C7 counterexample: with a declared shape of [2], a minimum bound already
matching that shape and a scalar maximum bound, shape promotion returns the
pair unchanged, so the maximum bound is not shaped as the declared shape. -/
theorem C7_promote_counterexample :
    promote_range_shape (some (.arr ⟨[2], [0, 0]⟩), some (.scalar 5)) [2]
      = .ok (some (.arr ⟨[2], [0, 0]⟩), some (.scalar 5))
    ∧ boundHasShape (some (.scalar 5)) [2] = false := by
  constructor
  · rfl
  · rfl

theorem promote_add_zeros_shape (v : PyVal) (proto : NDArray) (x : NPVal)
    (hb : broadcastShapes (pyValShape v) proto.shape = some proto.shape)
    (h : promote_add_zeros v proto = .ok x) :
    ∃ a, x = NPVal.arr a ∧ a.shape = proto.shape := by
  cases v with
  | none => exact absurd h (by simp [promote_add_zeros])
  | some w =>
    cases w with
    | scalar q =>
      simp only [promote_add_zeros, npBinopV, NPVal.toND] at h
      have hb' : broadcastShapes (NDArray.shape ⟨[], [q]⟩) proto.shape = some proto.shape := hb
      rw [npBinop_eq_some (fun a b => a + b) ⟨[], [q]⟩ proto proto.shape hb'] at h
      simp only [Option.map_some'] at h
      cases h
      exact ⟨_, rfl, rfl⟩
    | arr a0 =>
      simp only [promote_add_zeros, npBinopV, NPVal.toND] at h
      have hb' : broadcastShapes a0.shape proto.shape = some proto.shape := hb
      rw [npBinop_eq_some (fun a b => a + b) a0 proto proto.shape hb'] at h
      simp only [Option.map_some'] at h
      cases h
      exact ⟨_, rfl, rfl⟩

/-- C7 (amended): when the minimum bound is an ndarray exactly matching the
declared shape, the pair is returned unchanged (so an under-shaped maximum
bound is not promoted in that case); otherwise, whenever each bound
broadcasts up to (not beyond) the declared shape, both returned bounds are
arrays of exactly the declared shape. -/
theorem C7_promote_shape_amended (r : RPair) (s : List Nat) :
    (∀ a, r.1 = some (.arr a) → a.shape = s → promote_range_shape r s = .ok r)
    ∧ (∀ r', promote_range_shape r s = .ok r'
        → (∀ a, r.1 = some (.arr a) → a.shape ≠ s)
        → broadcastShapes (pyValShape r.1) s = some s
        → broadcastShapes (pyValShape r.2) s = some s
        → boundHasShape r'.1 s = true ∧ boundHasShape r'.2 s = true) := by
  constructor
  · intro a h1 h2
    unfold promote_range_shape
    rw [h1]
    simp [valueinfo_to_tensor, zerosND, h2]
  · intro r' hok hne hb1 hb2
    have hmain : promote_both r (zerosND s) = .ok r' →
        boundHasShape r'.1 s = true ∧ boundHasShape r'.2 s = true := by
      intro hpb
      unfold promote_both at hpb
      cases h1 : promote_add_zeros r.1 (zerosND s) with
      | error e =>
        rw [h1] at hpb
        simp at hpb
      | ok mn =>
        cases h2 : promote_add_zeros r.2 (zerosND s) with
        | error e =>
          rw [h1, h2] at hpb
          simp at hpb
        | ok mx =>
          rw [h1, h2] at hpb
          simp only [Except.ok.injEq] at hpb
          obtain ⟨a1, rfl, hs1⟩ := promote_add_zeros_shape r.1 (zerosND s) mn hb1 h1
          obtain ⟨a2, rfl, hs2⟩ := promote_add_zeros_shape r.2 (zerosND s) mx hb2 h2
          rw [← hpb]
          constructor
          · simp [boundHasShape, hs1, zerosND]
          · simp [boundHasShape, hs2, zerosND]
    unfold promote_range_shape at hok
    cases hr1 : r.1 with
    | none =>
      rw [hr1] at hok
      exact hmain hok
    | some w =>
      cases w with
      | scalar q =>
        rw [hr1] at hok
        exact hmain hok
      | arr a =>
        have hcond : ¬a.shape = (valueinfo_to_tensor s).shape := by
          simpa [valueinfo_to_tensor, zerosND] using hne a hr1
        rw [hr1] at hok
        simp only [hcond, if_false] at hok
        exact hmain hok

theorem C7_promote_shape_amended_witness :
    ((some (.arr ⟨[2], [5, 6]⟩) : PyVal) = some (.arr ⟨[2], [5, 6]⟩)
      ∧ NDArray.shape ⟨[2], [5, 6]⟩ = [2]
      ∧ promote_range_shape (some (.arr ⟨[2], [5, 6]⟩), some (.scalar 7)) [2]
          = .ok (some (.arr ⟨[2], [5, 6]⟩), some (.scalar 7)))
    ∧ (promote_range_shape (some (.scalar 0), some (.scalar 1)) [2]
          = .ok (some (.arr ⟨[2], [0, 0]⟩), some (.arr ⟨[2], [1, 1]⟩))
      ∧ broadcastShapes (pyValShape (some (.scalar 0))) [2] = some [2]
      ∧ broadcastShapes (pyValShape (some (.scalar 1))) [2] = some [2]
      ∧ boundHasShape (some (.arr ⟨[2], [0, 0]⟩)) [2] = true
      ∧ boundHasShape (some (.arr ⟨[2], [1, 1]⟩)) [2] = true) := by
  have hok : promote_range_shape (some (.scalar 0), some (.scalar 1)) [2]
      = .ok (some (.arr ⟨[2], [0, 0]⟩), some (.arr ⟨[2], [1, 1]⟩)) := by
    simp [promote_range_shape, promote_both, promote_add_zeros, npBinopV, NPVal.toND,
      npBinop, broadcastShapes, broadcastRev, broadcastDim, valueinfo_to_tensor, zerosND,
      shapeSize, NDArray.atIdx, projIdx, flattenIdx, unflattenIdx, List.range_succ]
  have hres := (C7_promote_shape_amended (some (.scalar 0), some (.scalar 1)) [2]).2
    (some (.arr ⟨[2], [0, 0]⟩), some (.arr ⟨[2], [1, 1]⟩)) hok
    (by intro a ha; simp at ha) rfl rfl
  exact ⟨⟨rfl, rfl,
      (C7_promote_shape_amended (some (.arr ⟨[2], [5, 6]⟩), some (.scalar 7)) [2]).1
        ⟨[2], [5, 6]⟩ rfl rfl⟩,
    hok, rfl, rfl, hres.1, hres.2⟩

/-! ## Claim C4 -/

theorem mid_rad_contains (mA rA mB rB x y : ℚ) (hrA : 0 ≤ rA) (_hrB : 0 ≤ rB)
    (hx : |x - mA| ≤ rA) (hy : |y - mB| ≤ rB) :
    mA * mB - (rA * (|mB| + rB) + |mA| * rB) ≤ x * y
    ∧ x * y ≤ mA * mB + (rA * (|mB| + rB) + |mA| * rB) := by
  have h1 : |x * y - mA * mB| ≤ rA * (|mB| + rB) + |mA| * rB := by
    have e : x * y - mA * mB = (x - mA) * y + mA * (y - mB) := by ring
    rw [e]
    calc |(x - mA) * y + mA * (y - mB)|
        ≤ |(x - mA) * y| + |mA * (y - mB)| := abs_add _ _
      _ = |x - mA| * |y| + |mA| * |y - mB| := by rw [abs_mul, abs_mul]
      _ ≤ rA * (|mB| + rB) + |mA| * rB := by
          apply add_le_add
          · apply mul_le_mul hx ?_ (abs_nonneg _) hrA
            calc |y| = |mB + (y - mB)| := by rw [show mB + (y - mB) = y by ring]
              _ ≤ |mB| + |y - mB| := abs_add _ _
              _ ≤ |mB| + rB := by linarith
          · exact mul_le_mul_of_nonneg_left hy (abs_nonneg _)
  obtain ⟨hlo, hhi⟩ := abs_le.mp h1
  constructor
  · linarith
  · linarith

/-- C4: for 1x1 input ranges (a, b) and (c, d) with a ≤ b and c ≤ d, under
exact arithmetic the MatMul midpoint-radius computation returns a range
whose midpoint equals the product of the two input midpoints and which
contains all four corner products; its radius is never smaller than the
radius of the exact corner-enumeration range. -/
theorem C4_matmul_midpoint_radius (a b c d : ℚ) (hab : a ≤ b) (hcd : c ≤ d) :
    ((calc_matmul_range (a, b) (c, d)).1 + (calc_matmul_range (a, b) (c, d)).2) / 2
        = (range_to_midpoint_radius (a, b)).1 * (range_to_midpoint_radius (c, d)).1
    ∧ ((calc_matmul_range (a, b) (c, d)).1 ≤ a * c
        ∧ a * c ≤ (calc_matmul_range (a, b) (c, d)).2)
    ∧ ((calc_matmul_range (a, b) (c, d)).1 ≤ a * d
        ∧ a * d ≤ (calc_matmul_range (a, b) (c, d)).2)
    ∧ ((calc_matmul_range (a, b) (c, d)).1 ≤ b * c
        ∧ b * c ≤ (calc_matmul_range (a, b) (c, d)).2)
    ∧ ((calc_matmul_range (a, b) (c, d)).1 ≤ b * d
        ∧ b * d ≤ (calc_matmul_range (a, b) (c, d)).2)
    ∧ (max (max (a * c) (a * d)) (max (b * c) (b * d))
          - min (min (a * c) (a * d)) (min (b * c) (b * d))) / 2
        ≤ ((calc_matmul_range (a, b) (c, d)).2 - (calc_matmul_range (a, b) (c, d)).1) / 2 := by
  have hrA : (0:ℚ) ≤ (a + 1/2 * (b - a)) - a := by linarith
  have hrB : (0:ℚ) ≤ (c + 1/2 * (d - c)) - c := by linarith
  have hxa : |a - (a + 1/2 * (b - a))| ≤ (a + 1/2 * (b - a)) - a := by
    rw [abs_le]
    constructor <;> linarith
  have hxb : |b - (a + 1/2 * (b - a))| ≤ (a + 1/2 * (b - a)) - a := by
    rw [abs_le]
    constructor <;> linarith
  have hyc : |c - (c + 1/2 * (d - c))| ≤ (c + 1/2 * (d - c)) - c := by
    rw [abs_le]
    constructor <;> linarith
  have hyd : |d - (c + 1/2 * (d - c))| ≤ (c + 1/2 * (d - c)) - c := by
    rw [abs_le]
    constructor <;> linarith
  have c1 := mid_rad_contains (a + 1/2 * (b - a)) ((a + 1/2 * (b - a)) - a)
    (c + 1/2 * (d - c)) ((c + 1/2 * (d - c)) - c) a c hrA hrB hxa hyc
  have c2 := mid_rad_contains (a + 1/2 * (b - a)) ((a + 1/2 * (b - a)) - a)
    (c + 1/2 * (d - c)) ((c + 1/2 * (d - c)) - c) a d hrA hrB hxa hyd
  have c3 := mid_rad_contains (a + 1/2 * (b - a)) ((a + 1/2 * (b - a)) - a)
    (c + 1/2 * (d - c)) ((c + 1/2 * (d - c)) - c) b c hrA hrB hxb hyc
  have c4 := mid_rad_contains (a + 1/2 * (b - a)) ((a + 1/2 * (b - a)) - a)
    (c + 1/2 * (d - c)) ((c + 1/2 * (d - c)) - c) b d hrA hrB hxb hyd
  simp only [calc_matmul_range, range_to_midpoint_radius]
  have hmax : max (max (a * c) (a * d)) (max (b * c) (b * d))
      ≤ (a + 1/2 * (b - a)) * (c + 1/2 * (d - c))
        + (((a + 1/2 * (b - a)) - a) * (|c + 1/2 * (d - c)| + ((c + 1/2 * (d - c)) - c))
          + |a + 1/2 * (b - a)| * ((c + 1/2 * (d - c)) - c)) :=
    max_le (max_le c1.2 c2.2) (max_le c3.2 c4.2)
  have hmin : (a + 1/2 * (b - a)) * (c + 1/2 * (d - c))
        - (((a + 1/2 * (b - a)) - a) * (|c + 1/2 * (d - c)| + ((c + 1/2 * (d - c)) - c))
          + |a + 1/2 * (b - a)| * ((c + 1/2 * (d - c)) - c))
      ≤ min (min (a * c) (a * d)) (min (b * c) (b * d)) :=
    le_min (le_min c1.1 c2.1) (le_min c3.1 c4.1)
  refine ⟨by ring, ⟨by linarith [c1.1], by linarith [c1.2]⟩,
    ⟨by linarith [c2.1], by linarith [c2.2]⟩,
    ⟨by linarith [c3.1], by linarith [c3.2]⟩,
    ⟨by linarith [c4.1], by linarith [c4.2]⟩, by linarith⟩

theorem C4_matmul_midpoint_radius_witness :
    (1:ℚ) ≤ 3 ∧ (1:ℚ) ≤ 3
    ∧ (((calc_matmul_range (1, 3) (1, 3)).1 + (calc_matmul_range (1, 3) (1, 3)).2) / 2
          = (range_to_midpoint_radius (1, 3)).1 * (range_to_midpoint_radius (1, 3)).1
      ∧ ((calc_matmul_range (1, 3) (1, 3)).1 ≤ 1 * 1
          ∧ 1 * 1 ≤ (calc_matmul_range (1, 3) (1, 3)).2)
      ∧ ((calc_matmul_range (1, 3) (1, 3)).1 ≤ 1 * 3
          ∧ 1 * 3 ≤ (calc_matmul_range (1, 3) (1, 3)).2)
      ∧ ((calc_matmul_range (1, 3) (1, 3)).1 ≤ 3 * 1
          ∧ 3 * 1 ≤ (calc_matmul_range (1, 3) (1, 3)).2)
      ∧ ((calc_matmul_range (1, 3) (1, 3)).1 ≤ 3 * 3
          ∧ 3 * 3 ≤ (calc_matmul_range (1, 3) (1, 3)).2)
      ∧ (max (max ((1:ℚ) * 1) (1 * 3)) (max (3 * 1) (3 * 3))
            - min (min ((1:ℚ) * 1) (1 * 3)) (min (3 * 1) (3 * 3))) / 2
          ≤ ((calc_matmul_range (1, 3) (1, 3)).2 - (calc_matmul_range (1, 3) (1, 3)).1) / 2) :=
  ⟨by norm_num, by norm_num, C4_matmul_midpoint_radius 1 3 1 3 (by norm_num) (by norm_num)⟩

/-! ## Claim C10 -/

/-- C10: calling range_analysis with a report_mode outside the accepted set
fails with the InvalidInput assertion message and an empty effect trace,
before any model loading, graph rewriting or range propagation; every
in-set value passes the entry check and the call proceeds to the body. -/
theorem C10_report_mode_entry_check (B : Boundary) (model_arg : Sum String Model)
    (irange : IRangeArg) (key_filter save_modified_model report_mode : String)
    (lower_ops prettyprint do_cleanup strip_initializers_from_report : Bool) :
    (report_modes.contains report_mode = false →
      range_analysis B model_arg irange key_filter save_modified_model report_mode
        lower_ops prettyprint do_cleanup strip_initializers_from_report
      = (.error "Unrecognized report_mode, must be range, stuck_channel, zerostuck_channel",
         []))
    ∧ (report_modes.contains report_mode = true →
      range_analysis B model_arg irange key_filter save_modified_model report_mode
        lower_ops prettyprint do_cleanup strip_initializers_from_report
      = range_analysis_body B model_arg irange key_filter save_modified_model report_mode
          lower_ops prettyprint do_cleanup strip_initializers_from_report) := by
  constructor
  · intro h
    unfold range_analysis
    rw [h]
    rfl
  · intro h
    unfold range_analysis
    rw [h]
    rfl

/-- Empty graph model shared by several witnesses. -/
def witModelEmpty : Model :=
  { graph_input := []
    graph_node := []
    all_tensor_names := []
    get_initializer := fun _ => none
    get_tensor_valueinfo := fun _ => none
    get_tensor_datatype := fun _ => none }

/-- Trivial boundary collaborator shared by several witnesses: all graph
rewrites are the identity, the executor leaves the context unchanged. -/
def witBoundary : Boundary :=
  { loadModel := fun _ => witModelEmpty
    cleanup_model := fun m => m
    cleanup_model_default := fun m => m
    lower_convs := fun m => m
    gemm_to_matmul := fun m => m
    infer_shapes := fun m => m
    fold_constants := fun m => m
    infer_datatypes := fun m => m
    eval_irange := fun _ => (none, none)
    execute_node := fun _ ctx => ctx
    np_matmul := fun _ _ => .error "matmul"
    pformat_ranges := fun _ => "ranges"
    pformat_stuck := fun _ => "stuck"
    pformat_zerostuck := fun _ => "zerostuck" }

theorem C10_report_mode_entry_check_witness :
    report_modes.contains "bogus" = false
    ∧ report_modes.contains "range" = true
    ∧ range_analysis witBoundary (.inr witModelEmpty) (.str "") "" "" "bogus"
        false false false true
      = (.error "Unrecognized report_mode, must be range, stuck_channel, zerostuck_channel",
         [])
    ∧ range_analysis witBoundary (.inr witModelEmpty) (.str "") "" "" "range"
        false false false true
      = range_analysis_body witBoundary (.inr witModelEmpty) (.str "") "" "" "range"
          false false false true :=
  ⟨rfl, rfl,
    (C10_report_mode_entry_check witBoundary (.inr witModelEmpty) (.str "") "" "" "bogus"
      false false false true).1 rfl,
    (C10_report_mode_entry_check witBoundary (.inr witModelEmpty) (.str "") "" "" "range"
      false false false true).2 rfl⟩

/-! ## Claim C9 -/

theorem assemble_report_stuck_empty (B : Boundary) (key_filter : String)
    (prettyprint strip_initializers_from_report : Bool) (rd : RangeDict) :
    assemble_report B key_filter REPORT_MODE_STUCKCHANNEL prettyprint
        strip_initializers_from_report rd []
      = if prettyprint then .pretty (B.pformat_stuck []) else .stuck [] := by
  simp [assemble_report, REPORT_MODE_STUCKCHANNEL, REPORT_MODE_ZEROSTUCKCHANNEL,
    REPORT_MODE_RANGE, Report.filter_keys, Report.zerostuck_reduce, Report.render]

theorem assemble_report_zerostuck_empty (B : Boundary) (key_filter : String)
    (prettyprint strip_initializers_from_report : Bool) (rd : RangeDict) :
    assemble_report B key_filter REPORT_MODE_ZEROSTUCKCHANNEL prettyprint
        strip_initializers_from_report rd []
      = if prettyprint then .pretty (B.pformat_zerostuck []) else .zerostuck [] := by
  simp [assemble_report, REPORT_MODE_STUCKCHANNEL, REPORT_MODE_ZEROSTUCKCHANNEL,
    REPORT_MODE_RANGE, Report.filter_keys, Report.zerostuck_reduce, Report.render]

theorem range_analysis_body_ok_report (B : Boundary) (model_arg : Sum String Model)
    (irange : IRangeArg) (key_filter save_modified_model report_mode : String)
    (lower_ops prettyprint do_cleanup strip_initializers_from_report : Bool)
    (r : Report) (ev : List Event)
    (hok : range_analysis_body B model_arg irange key_filter save_modified_model report_mode
        lower_ops prettyprint do_cleanup strip_initializers_from_report = (.ok r, ev)) :
    ∃ rd, r = assemble_report B key_filter report_mode prettyprint
      strip_initializers_from_report rd [] := by
  unfold range_analysis_body at hok
  split at hok
  · exact absurd hok (by simp)
  · simp only [Prod.mk.injEq, Except.ok.injEq] at hok
    exact ⟨_, hok.1.symm⟩

/-- C9: for every invocation of range_analysis in report mode stuck_channel
or zerostuck_channel that completes without a fatal error, the returned
report is the empty mapping of the corresponding kind, or its
pretty-printed rendering when prettyprint is set, because the stuck-channel
table is never populated. -/
theorem C9_stuck_modes_empty_report (B : Boundary) (model_arg : Sum String Model)
    (irange : IRangeArg) (key_filter save_modified_model report_mode : String)
    (lower_ops prettyprint do_cleanup strip_initializers_from_report : Bool)
    (r : Report) (ev : List Event)
    (hmode : report_mode = REPORT_MODE_STUCKCHANNEL
      ∨ report_mode = REPORT_MODE_ZEROSTUCKCHANNEL)
    (hok : range_analysis B model_arg irange key_filter save_modified_model report_mode
        lower_ops prettyprint do_cleanup strip_initializers_from_report = (.ok r, ev)) :
    (report_mode = REPORT_MODE_STUCKCHANNEL →
      r = if prettyprint then .pretty (B.pformat_stuck []) else .stuck [])
    ∧ (report_mode = REPORT_MODE_ZEROSTUCKCHANNEL →
      r = if prettyprint then .pretty (B.pformat_zerostuck []) else .zerostuck []) := by
  have hcont : report_modes.contains report_mode = true := by
    rcases hmode with h | h <;> rw [h] <;> rfl
  unfold range_analysis at hok
  rw [hcont] at hok
  simp only [if_true] at hok
  obtain ⟨rd, hr⟩ := range_analysis_body_ok_report B model_arg irange key_filter
    save_modified_model report_mode lower_ops prettyprint do_cleanup
    strip_initializers_from_report r ev hok
  constructor
  · intro hm
    subst hm
    rw [hr]
    exact assemble_report_stuck_empty B key_filter prettyprint
      strip_initializers_from_report rd
  · intro hm
    subst hm
    rw [hr]
    exact assemble_report_zerostuck_empty B key_filter prettyprint
      strip_initializers_from_report rd

theorem C9_stuck_modes_empty_report_witness :
    ("stuck_channel" = REPORT_MODE_STUCKCHANNEL
      ∨ "stuck_channel" = REPORT_MODE_ZEROSTUCKCHANNEL)
    ∧ range_analysis witBoundary (.inr witModelEmpty) (.str "") "" "" "stuck_channel"
        false false false true
      = (.ok (.stuck []), [Event.infer_shapes, Event.fold_constants, Event.infer_datatypes])
    ∧ (("stuck_channel" = REPORT_MODE_STUCKCHANNEL →
        (Report.stuck []) = if false then .pretty (witBoundary.pformat_stuck []) else .stuck [])
      ∧ ("stuck_channel" = REPORT_MODE_ZEROSTUCKCHANNEL →
        (Report.stuck [])
          = if false then .pretty (witBoundary.pformat_zerostuck []) else .zerostuck [])) :=
  ⟨Or.inl rfl, rfl,
    C9_stuck_modes_empty_report witBoundary (.inr witModelEmpty) (.str "") "" ""
      "stuck_channel" false false false true (.stuck [])
      [Event.infer_shapes, Event.fold_constants, Event.infer_datatypes]
      (Or.inl rfl) rfl⟩

/-! ## Claim C1 -/

/-- Two-input model with different declared input datatypes, used against
per-input datatype seeding. -/
def witModelC1 : Model :=
  { graph_input := ["a", "b"]
    graph_node := []
    all_tensor_names := []
    get_initializer := fun _ => none
    get_tensor_valueinfo := fun _ => none
    get_tensor_datatype := fun n =>
      if n = "a" then some ⟨0, 1⟩ else if n = "b" then some ⟨-5, 5⟩ else none }

/-- C1 counterexample: with irange the empty string and two inputs of
different declared datatypes, the second input is seeded with the first
input's datatype bounds (0, 1), not with its own datatype bounds (-5, 5),
and no MissingData assertion is involved. -/
theorem C1_input_seeding_counterexample :
    witModelC1.get_tensor_datatype "b" = some ⟨-5, 5⟩
    ∧ range_analysis witBoundary (.inr witModelC1) (.str "") "" "" "range"
        false false false false
      = (.ok (.ranges
          [("a", { range := some (some (.scalar 0), some (.scalar 1)) }),
           ("b", { range := some (some (.scalar 0), some (.scalar 1)) })]),
         [Event.infer_shapes, Event.fold_constants, Event.infer_datatypes])
    ∧ (some ((some (.scalar (0:ℚ)), some (.scalar (1:ℚ))) : PyVal × PyVal) : Option RPair)
        ≠ some (some (.scalar (-5)), some (.scalar 5)) := by
  refine ⟨rfl, rfl, ?_⟩
  intro hcon
  simp only [Option.some.injEq, Prod.mk.injEq, NPVal.scalar.injEq] at hcon
  have h0 : (0:ℚ) = -5 := hcon.1
  norm_num at h0

theorem dictGet_foldl_dictSet_const {α : Type} (names : List String) (v : α)
    (d : List (String × α)) (t : String) :
    dictGet (names.foldl (fun d n => dictSet d n v) d) t
      = if t ∈ names then some v else dictGet d t := by
  induction names generalizing d with
  | nil => simp
  | cons n ns ih =>
    rw [List.foldl_cons, ih]
    by_cases h : t ∈ ns
    · simp [h]
    · by_cases ht : t = n
      · simp [h, ht, dictGet_dictSet_self]
      · simp [h, ht, dictGet_dictSet_ne _ _ _ _ ht]

theorem seed_loop_with_bounds (model : Model) (names : List String) (mn mx : NPVal)
    (rd : RangeDict) :
    seed_input_loop model (.fromBounds none none) names ((some mn, some mx)) rd
      = .ok ((some mn, some mx),
          names.foldl (fun d n =>
            dictSet d n { range := some ((some mn, some mx) : PyVal × PyVal) }) rd) := by
  induction names generalizing rd with
  | nil => rfl
  | cons n ns ih =>
    exact ih (dictSet rd n { range := some ((some mn, some mx) : PyVal × PyVal) })

/-- C1 (amended): with no explicit range record and no resolved bounds,
every graph input is seeded with the bounds of the FIRST input's declared
datatype (the bounds derived once are sticky across the loop), and the
MissingData assertion fires exactly when the first input itself has no
datatype annotation. -/
theorem C1_input_seeding_amended (model : Model) (i0 : String) (rest : List String)
    (hgi : model.graph_input = i0 :: rest) :
    (∀ d0, model.get_tensor_datatype i0 = some d0 →
      ∃ rd, seed_input_ranges model (.fromBounds none none) = .ok rd
        ∧ ∀ n, n ∈ model.graph_input → dictGet rd n
            = some { range := some (some (.scalar d0.min), some (.scalar d0.max)) })
    ∧ (model.get_tensor_datatype i0 = none →
      seed_input_ranges model (.fromBounds none none)
        = .error "Could not infer irange, please specify") := by
  constructor
  · intro d0 hd0
    unfold seed_input_ranges
    rw [hgi]
    simp only [seed_input_loop, seed_input_step, Option.isNone_none, Bool.true_or,
      if_true, hd0]
    rw [seed_loop_with_bounds]
    refine ⟨_, rfl, ?_⟩
    intro n hn
    dsimp only
    rw [dictGet_foldl_dictSet_const]
    rcases List.mem_cons.mp hn with h | h
    · by_cases hr : n ∈ rest
      · rw [if_pos hr]
      · rw [if_neg hr]
        subst h
        exact dictGet_dictSet_self _ _ _
    · rw [if_pos h]
  · intro hnone
    unfold seed_input_ranges
    rw [hgi]
    simp only [seed_input_loop, seed_input_step, Option.isNone_none, Bool.true_or,
      if_true, hnone]

theorem C1_input_seeding_amended_witness :
    witModelC1.graph_input = "a" :: ["b"]
    ∧ ((∀ d0, witModelC1.get_tensor_datatype "a" = some d0 →
        ∃ rd, seed_input_ranges witModelC1 (.fromBounds none none) = .ok rd
          ∧ ∀ n, n ∈ witModelC1.graph_input → dictGet rd n
              = some { range := some (some (.scalar d0.min), some (.scalar d0.max)) })
      ∧ (witModelC1.get_tensor_datatype "a" = none →
        seed_input_ranges witModelC1 (.fromBounds none none)
          = .error "Could not infer irange, please specify")) :=
  ⟨rfl, C1_input_seeding_amended witModelC1 "a" ["b"] rfl⟩

/-! ## Claim C8 -/

/-- C8: a node whose operator type has no dispatch-table entry, or one of
whose dynamic inputs has no range-table entry, is skipped non-fatally: a
warning naming the node, its operator type and the two precondition flags
is recorded, no range-table entries are created for any of the node's
outputs (the table is passed on unchanged), and the walk continues with the
remaining nodes in declaration order. -/
theorem C8_unsupported_node_skip (B : Boundary) (model : Model) (node : Node)
    (rest : List Node) (rd : RangeDict) (warnings : List SkipWarning)
    (hskip : (node_inprange_ok node model rd && node_op_ok node) = false) :
    walk_nodes B model (node :: rest) rd warnings
      = walk_nodes B model rest rd
          (warnings ++ [⟨node.name, node_inprange_ok node model rd, node.op_type,
            node_op_ok node⟩]) := by
  cases hop : dictGet optype_to_range_calc node.op_type with
  | none =>
    simp only [walk_nodes, hop]
  | some kind =>
    have hopok : node_op_ok node = true := by simp [node_op_ok, hop]
    have hin : node_inprange_ok node model rd = false := by
      cases hi : node_inprange_ok node model rd
      · rfl
      · rw [hi, hopok] at hskip
        simp at hskip
    simp only [walk_nodes, hop, hin, Bool.false_eq_true, if_false]

/-- Node with an operator type missing from the dispatch table. -/
def witNodeFoo : Node := { name := "n0", op_type := "Foo", input := ["x"], output := ["y"] }

theorem C8_unsupported_node_skip_witness :
    (node_inprange_ok witNodeFoo witModelEmpty [] && node_op_ok witNodeFoo) = false
    ∧ walk_nodes witBoundary witModelEmpty [witNodeFoo] [] []
      = walk_nodes witBoundary witModelEmpty [] []
          ([] ++ [⟨witNodeFoo.name, node_inprange_ok witNodeFoo witModelEmpty [],
            witNodeFoo.op_type, node_op_ok witNodeFoo⟩]) :=
  ⟨rfl, C8_unsupported_node_skip witBoundary witModelEmpty witNodeFoo [] [] [] rfl⟩

/-! ## Claim C5 -/

theorem keyGet_ok_iff {α : Type} (d : List (String × α)) (k : String) (v : α) :
    keyGet d k = .ok v ↔ dictGet d k = some v := by
  unfold keyGet
  cases h : dictGet d k <;> simp

theorem degenerate_assign_preserve (ctxPost : Ctx) (outs : List String) (rd rdf : RangeDict)
    (t : String) (hnot : t ∉ outs) (hf : degenerate_assign ctxPost outs rd = .ok rdf) :
    dictGet rdf t = dictGet rd t := by
  induction outs generalizing rd with
  | nil =>
    cases hf
    rfl
  | cons n ns ih =>
    have hne : t ≠ n := fun hc => hnot (hc ▸ List.mem_cons_self n ns)
    have hnot2 : t ∉ ns := fun hc => hnot (List.mem_cons_of_mem _ hc)
    simp only [degenerate_assign] at hf
    cases hv : keyGet ctxPost n with
    | error e =>
      rw [hv] at hf
      exact absurd hf (by simp)
    | ok v =>
      rw [hv] at hf
      cases hri : keyGet rd n with
      | error e =>
        rw [hri] at hf
        exact absurd hf (by simp)
      | ok ri =>
        rw [hri] at hf
        rw [ih _ hnot2 hf]
        exact dictGet_dictSet_ne _ _ _ _ hne

theorem degenerate_assign_mem (ctxPost : Ctx) (outs : List String) (rd rdf : RangeDict)
    (hf : degenerate_assign ctxPost outs rd = .ok rdf) :
    ∀ o ∈ outs, ∃ (v : PyVal) (ri0 : RangeInfo), dictGet ctxPost o = some v
      ∧ dictGet rdf o
          = some { ri0 with range := some (v, v), is_initializer := true } := by
  induction outs generalizing rd with
  | nil =>
    intro o ho
    cases ho
  | cons n ns ih =>
    intro o ho
    simp only [degenerate_assign] at hf
    cases hv : keyGet ctxPost n with
    | error e =>
      rw [hv] at hf
      exact absurd hf (by simp)
    | ok v =>
      rw [hv] at hf
      cases hri : keyGet rd n with
      | error e =>
        rw [hri] at hf
        exact absurd hf (by simp)
      | ok ri =>
        rw [hri] at hf
        rcases List.mem_cons.mp ho with rfl | hmem
        · by_cases hin : o ∈ ns
          · exact ih _ hf o hin
          · refine ⟨v, ri, (keyGet_ok_iff _ _ _).mp hv, ?_⟩
            rw [degenerate_assign_preserve ctxPost ns _ rdf o hin hf]
            exact dictGet_dictSet_self _ _ _
        · exact ih _ hf o hmem

/-- C5: for a node dispatched to monotonic propagation with zero dynamic
inputs, the boundary executor is invoked exactly once — on the initial
all-constant context — and every output receives the degenerate point range
(value, value) of that single evaluation's output and the is_initializer
flag. -/
theorem C5_zero_dyn_inputs (execNode : Executor) (model : Model) (node : Node)
    (rd rd' : RangeDict) (trace : List Ctx) (ctx0 : Ctx)
    (hdyn : dyn_inputs_of node model = [])
    (hctx : mk_node_ctx model node = .ok ctx0)
    (hok : calc_monotonic_range execNode model node rd = .ok (rd', trace)) :
    trace = [ctx0]
    ∧ ∀ o ∈ node.output, ∃ (v : PyVal) (ri0 : RangeInfo), dictGet (execNode ctx0) o = some v
        ∧ dictGet rd' o
            = some { ri0 with range := some (v, v), is_initializer := true } := by
  unfold calc_monotonic_range at hok
  rw [hctx, hdyn] at hok
  simp only [List.length_nil, if_true] at hok
  cases hda : degenerate_assign (execNode ctx0) node.output rd with
  | error e =>
    rw [hda] at hok
    exact absurd hok (by simp)
  | ok rdf =>
    rw [hda] at hok
    simp only [Except.ok.injEq, Prod.mk.injEq] at hok
    obtain ⟨h1, h2⟩ := hok
    subst h1
    subst h2
    exact ⟨rfl, degenerate_assign_mem (execNode ctx0) node.output rd rdf hda⟩

/-- Model for the zero-dynamic-input witnesses: two constant node inputs. -/
def witModelC5 : Model :=
  { graph_input := []
    graph_node := []
    all_tensor_names := ["c1", "c2"]
    get_initializer := fun n =>
      if n = "c1" then some ⟨[1], [2]⟩ else if n = "c2" then some ⟨[1], [3]⟩ else none
    get_tensor_valueinfo := fun n => if n = "y" then some [1] else none
    get_tensor_datatype := fun _ => none }

/-- All-constant-input Add node for the zero-dynamic-input witnesses. -/
def witNodeC5 : Node := { name := "add0", op_type := "Add", input := ["c1", "c2"], output := ["y"] }

/-- Executor writing the concrete sum 5 into the output slot. -/
def witExecC5 : Executor := fun ctx => dictSet ctx "y" (some (.arr ⟨[1], [5]⟩))

/-- Initial context of the witness node. -/
def witCtxC5 : Ctx :=
  [("c1", some (.arr ⟨[1], [2]⟩)), ("c2", some (.arr ⟨[1], [3]⟩)),
   ("y", some (.arr ⟨[1], [0]⟩))]

/-- Output record produced by the witness run. -/
def witRIC5 : RangeInfo :=
  { range := some (some (.arr ⟨[1], [5]⟩), some (.arr ⟨[1], [5]⟩))
    is_initializer := true }

theorem C5_zero_dyn_inputs_witness :
    dyn_inputs_of witNodeC5 witModelC5 = []
    ∧ mk_node_ctx witModelC5 witNodeC5 = .ok witCtxC5
    ∧ calc_monotonic_range witExecC5 witModelC5 witNodeC5 [("y", {})]
        = .ok ([("y", witRIC5)], [witCtxC5])
    ∧ ([witCtxC5] = [witCtxC5]
      ∧ ∀ o ∈ witNodeC5.output, ∃ (v : PyVal) (ri0 : RangeInfo),
        dictGet (witExecC5 witCtxC5) o = some v
        ∧ dictGet [("y", witRIC5)] o
            = some { ri0 with range := some (v, v), is_initializer := true }) :=
  ⟨rfl, rfl, rfl,
    C5_zero_dyn_inputs witExecC5 witModelC5 witNodeC5 [("y", {})]
      [("y", witRIC5)] [witCtxC5] witCtxC5 rfl rfl rfl⟩

/-! ## Claim C3 -/

/-- C3 counterexample: the output record of an all-constant node flagged by
the degenerate monotonic case holds an all-integral value yet carries no
integer info, refuting the claim that every is_initializer record with
integral values has int_range, scale and bias populated. -/
theorem C3_initializer_invariant_counterexample :
    calc_monotonic_range witExecC5 witModelC5 witNodeC5 [("y", {})]
      = .ok ([("y", witRIC5)], [witCtxC5])
    ∧ witRIC5.is_initializer = true
    ∧ witRIC5.range = some (some (.arr ⟨[1], [5]⟩), some (.arr ⟨[1], [5]⟩))
    ∧ npAllIntegral ⟨[1], [5]⟩ = true
    ∧ witRIC5.int_range = none
    ∧ witRIC5.scale = none
    ∧ witRIC5.bias = none
    ∧ witRIC5.has_integer_info = false := by
  refine ⟨rfl, rfl, rfl, ?_, rfl, rfl, rfl, rfl⟩
  simp only [npAllIntegral, npMod1, List.all_cons, List.all_nil, Bool.and_true]
  norm_num [Rat.floor_def']

theorem degenerate_assign_mem_pre (ctxPost : Ctx) (outs : List String) (rd rdf : RangeDict)
    (hnd : outs.Nodup) (hf : degenerate_assign ctxPost outs rd = .ok rdf) :
    ∀ o ∈ outs, ∃ (v : PyVal) (ri : RangeInfo),
      dictGet ctxPost o = some v
      ∧ dictGet rd o = some ri
      ∧ dictGet rdf o = some { ri with range := some (v, v), is_initializer := true } := by
  induction outs generalizing rd with
  | nil =>
    intro o ho
    cases ho
  | cons n ns ih =>
    intro o ho
    obtain ⟨h1nd, hosnd⟩ := List.nodup_cons.mp hnd
    simp only [degenerate_assign] at hf
    cases hv : keyGet ctxPost n with
    | error e =>
      rw [hv] at hf
      exact absurd hf (by simp)
    | ok v =>
      rw [hv] at hf
      cases hri : keyGet rd n with
      | error e =>
        rw [hri] at hf
        exact absurd hf (by simp)
      | ok ri =>
        rw [hri] at hf
        rcases List.mem_cons.mp ho with rfl | hmem
        · refine ⟨v, ri, (keyGet_ok_iff _ _ _).mp hv, (keyGet_ok_iff _ _ _).mp hri, ?_⟩
          rw [degenerate_assign_preserve ctxPost ns _ rdf o h1nd hf]
          exact dictGet_dictSet_self _ _ _
        · obtain ⟨v2, ri2, hkv2, hpre2, hpost2⟩ := ih _ hosnd hf o hmem
          have hne : o ≠ n := fun hc => h1nd (hc ▸ hmem)
          rw [dictGet_dictSet_ne _ _ _ _ hne] at hpre2
          exact ⟨v2, ri2, hkv2, hpre2, hpost2⟩

/-- C3 (amended): is_initializer records always carry a degenerate range
with equal minimum and maximum; records created by initializer seeding
additionally carry int_range equal to the constant with scale 1 and bias 0
exactly when the constant is all-integral (and no integer info otherwise),
whereas the output records of all-constant nodes flagged by the degenerate
monotonic case never receive integer info: their int_range, scale and bias
are exactly those of the pre-existing record at that key, whatever the
output value. -/
theorem C3_initializer_records_amended :
    (∀ (model : Model) (rd0 : RangeDict) (t : String) (c : NDArray),
      t ∈ model.all_tensor_names → model.get_initializer t = some c →
      ∃ ri, dictGet (calc_range_all_initializers model rd0) t = some ri
        ∧ ri.range = some (some (.arr c), some (.arr c))
        ∧ ri.is_initializer = true
        ∧ (npAllIntegral c = true →
            ri.int_range = some (some (.arr c), some (.arr c))
            ∧ ri.scale = some (.arr ⟨[1], [1]⟩)
            ∧ ri.bias = some (.arr ⟨[1], [0]⟩))
        ∧ (npAllIntegral c = false →
            ri.int_range = none ∧ ri.scale = none ∧ ri.bias = none)
        ∧ (ri.has_integer_info = true ↔ npAllIntegral c = true))
    ∧ (∀ (execNode : Executor) (model : Model) (node : Node) (rd rd' : RangeDict)
        (trace : List Ctx),
      dyn_inputs_of node model = [] →
      node.output.Nodup →
      calc_monotonic_range execNode model node rd = .ok (rd', trace) →
      ∀ o ∈ node.output, ∃ (v : PyVal) (ri rs : RangeInfo),
        dictGet rd o = some ri
        ∧ dictGet rd' o = some rs
        ∧ rs.range = some (v, v)
        ∧ rs.is_initializer = true
        ∧ rs.int_range = ri.int_range
        ∧ rs.scale = ri.scale
        ∧ rs.bias = ri.bias
        ∧ rs.has_integer_info = ri.has_integer_info) := by
  constructor
  · intro model rd0 t c hmem hinit
    refine ⟨init_range_info c,
      dictGet_calc_range_all_initializers model rd0 t c hmem hinit, ?_, ?_, ?_, ?_, ?_⟩
    · by_cases h : npAllIntegral c <;> simp [init_range_info, h]
    · by_cases h : npAllIntegral c <;> simp [init_range_info, h]
    · intro h
      simp [init_range_info, h]
    · intro h
      simp [init_range_info, h]
    · by_cases h : npAllIntegral c <;>
        simp [init_range_info, RangeInfo.has_integer_info, h]
  · intro execNode model node rd rd' trace hdyn hndout hok o ho
    unfold calc_monotonic_range at hok
    cases hctx : mk_node_ctx model node with
    | error e =>
      rw [hctx] at hok
      exact absurd hok (by simp)
    | ok ctx0 =>
      rw [hctx, hdyn] at hok
      simp only [List.length_nil, if_true] at hok
      cases hda : degenerate_assign (execNode ctx0) node.output rd with
      | error e =>
        rw [hda] at hok
        exact absurd hok (by simp)
      | ok rdf =>
        rw [hda] at hok
        simp only [Except.ok.injEq, Prod.mk.injEq] at hok
        obtain ⟨h1, h2⟩ := hok
        subst h1
        obtain ⟨v, ri, hv, hpre, hpost⟩ :=
          degenerate_assign_mem_pre (execNode ctx0) node.output rd rdf hndout hda o ho
        exact ⟨v, ri, { ri with range := some (v, v), is_initializer := true },
          hpre, hpost, rfl, rfl, rfl, rfl, rfl, rfl⟩

theorem C3_initializer_records_amended_witness :
    (∃ ri, dictGet (calc_range_all_initializers witModelC6 []) "w" = some ri
      ∧ ri.range = some (some (.arr ⟨[2], [2, 3]⟩), some (.arr ⟨[2], [2, 3]⟩))
      ∧ ri.is_initializer = true
      ∧ (npAllIntegral ⟨[2], [2, 3]⟩ = true →
          ri.int_range = some (some (.arr ⟨[2], [2, 3]⟩), some (.arr ⟨[2], [2, 3]⟩))
          ∧ ri.scale = some (.arr ⟨[1], [1]⟩)
          ∧ ri.bias = some (.arr ⟨[1], [0]⟩))
      ∧ (npAllIntegral ⟨[2], [2, 3]⟩ = false →
          ri.int_range = none ∧ ri.scale = none ∧ ri.bias = none)
      ∧ (ri.has_integer_info = true ↔ npAllIntegral ⟨[2], [2, 3]⟩ = true))
    ∧ (∀ o ∈ witNodeC5.output, ∃ (v : PyVal) (ri rs : RangeInfo),
        dictGet [("y", ({} : RangeInfo))] o = some ri
        ∧ dictGet [("y", witRIC5)] o = some rs
        ∧ rs.range = some (v, v)
        ∧ rs.is_initializer = true
        ∧ rs.int_range = ri.int_range
        ∧ rs.scale = ri.scale
        ∧ rs.bias = ri.bias
        ∧ rs.has_integer_info = ri.has_integer_info) :=
  ⟨C3_initializer_records_amended.1 witModelC6 [] "w" ⟨[2], [2, 3]⟩
      (by simp [witModelC6]) (by simp [witModelC6]),
    C3_initializer_records_amended.2 witExecC5 witModelC5 witNodeC5 [("y", {})]
      [("y", witRIC5)] [witCtxC5] rfl (by decide) rfl⟩

/-! ## Claim C2: supporting lemmas -/

theorem dictGet_foldl_dictSet_fn {α : Type} (f : String → α) (names : List String)
    (d : List (String × α)) (t : String) :
    dictGet (names.foldl (fun c n => dictSet c n (f n)) d) t
      = if t ∈ names then some (f t) else dictGet d t := by
  induction names generalizing d with
  | nil => simp
  | cons n ns ih =>
    rw [List.foldl_cons, ih]
    by_cases h : t ∈ ns
    · simp [h]
    · by_cases ht : t = n
      · subst ht
        simp [h, dictGet_dictSet_self]
      · simp [h, ht, dictGet_dictSet_ne _ _ _ _ ht]

theorem mk_out_ctx_preserve (model : Model) (outs : List String) (c cf : Ctx)
    (hf : mk_out_ctx model outs c = .ok cf) (t : String) (hnot : t ∉ outs) :
    dictGet cf t = dictGet c t := by
  induction outs generalizing c with
  | nil =>
    cases hf
    rfl
  | cons n ns ih =>
    have hne : t ≠ n := fun hc => hnot (hc ▸ List.mem_cons_self n ns)
    have hnot2 : t ∉ ns := fun hc => hnot (List.mem_cons_of_mem _ hc)
    simp only [mk_out_ctx] at hf
    cases hvi : model.get_tensor_valueinfo n with
    | none =>
      rw [hvi] at hf
      exact absurd hf (by simp)
    | some sh =>
      rw [hvi] at hf
      rw [ih _ hf hnot2]
      exact dictGet_dictSet_ne _ _ _ _ hne

theorem mk_node_ctx_inputs (model : Model) (node : Node) (ctx0 : Ctx)
    (hctx : mk_node_ctx model node = .ok ctx0)
    (x : String) (hx : x ∈ node.input) (hxo : x ∉ node.output) :
    dictGet ctx0 x = some ((model.get_initializer x).map NPVal.arr) := by
  unfold mk_node_ctx at hctx
  rw [mk_out_ctx_preserve model node.output _ ctx0 hctx x hxo]
  rw [dictGet_foldl_dictSet_fn (fun n => (model.get_initializer n).map NPVal.arr)]
  rw [if_pos hx]

theorem dictGet_setDyns_not_mem (ctx : Ctx) (dyns : List String) (corner : List PyVal)
    (x : String) (hx : x ∉ dyns) :
    dictGet (setDyns ctx dyns corner) x = dictGet ctx x := by
  induction dyns generalizing ctx corner with
  | nil => rfl
  | cons d ds ih =>
    have hne : x ≠ d := fun hc => hx (hc ▸ List.mem_cons_self d ds)
    have hx2 : x ∉ ds := fun hc => hx (List.mem_cons_of_mem _ hc)
    cases corner with
    | nil => rfl
    | cons c cs =>
      show dictGet (setDyns (dictSet ctx d c) ds cs) x = dictGet ctx x
      rw [ih _ _ hx2]
      exact dictGet_dictSet_ne _ _ _ _ hne

theorem dictGet_setDyns_get (ctx : Ctx) (dyns : List String) (corner : List PyVal)
    (hnd : dyns.Nodup) (hlen : corner.length = dyns.length)
    (i : Nat) (hi : i < dyns.length) (hi2 : i < corner.length) :
    dictGet (setDyns ctx dyns corner) (dyns.get ⟨i, hi⟩)
      = some (corner.get ⟨i, hi2⟩) := by
  induction dyns generalizing ctx corner i with
  | nil => exact absurd hi (Nat.not_lt_zero i)
  | cons d ds ih =>
    cases corner with
    | nil => simp at hlen
    | cons c cs =>
      obtain ⟨hd, hnd2⟩ := List.nodup_cons.mp hnd
      cases i with
      | zero =>
        show dictGet (setDyns (dictSet ctx d c) ds cs) d = some c
        rw [dictGet_setDyns_not_mem _ _ _ _ hd]
        exact dictGet_dictSet_self _ _ _
      | succ j =>
        show dictGet (setDyns (dictSet ctx d c) ds cs) (ds.get _) = some (cs.get _)
        exact ih _ _ hnd2 (by simpa using hlen) j (by simpa using hi) (by simpa using hi2)

theorem listProduct_length {α : Type} (ls : List (List α)) :
    (listProduct ls).length = (ls.map List.length).prod := by
  induction ls with
  | nil => rfl
  | cons l rest ih =>
    simp only [listProduct, List.length_flatMap, List.map_map, List.map_cons, List.prod_cons]
    have hconst : ∀ x ∈ l, ((listProduct rest).map (fun xs => x :: xs)).length
        = (listProduct rest).length := fun x _ => List.length_map _ _
    calc (l.map fun x => ((listProduct rest).map (fun xs => x :: xs)).length).sum
        = (l.map fun _ => (listProduct rest).length).sum := by
          congr 1
          exact List.map_congr_left hconst
      _ = l.length * (listProduct rest).length := by
          rw [List.map_const', List.sum_replicate, smul_eq_mul]
      _ = l.length * (rest.map List.length).prod := by rw [ih]

theorem listProduct_mem_length {α : Type} (ls : List (List α)) (cor : List α)
    (h : cor ∈ listProduct ls) : cor.length = ls.length := by
  induction ls generalizing cor with
  | nil =>
    simp only [listProduct, List.mem_singleton] at h
    subst h
    rfl
  | cons l rest ih =>
    simp only [listProduct, List.mem_flatMap, List.mem_map] at h
    obtain ⟨x, _, xs, hxs, rfl⟩ := h
    simp [ih xs hxs]

theorem cornersOf_length (protos : List RPair) :
    (cornersOf protos).length = 2 ^ protos.length := by
  unfold cornersOf
  rw [listProduct_length]
  have : (protos.map (fun p => [p.1, p.2])).map List.length
      = List.replicate protos.length 2 := by
    rw [List.map_map]
    rw [List.eq_replicate_iff]
    constructor
    · simp
    · intro b hb
      rw [List.mem_map] at hb
      obtain ⟨p, _, rfl⟩ := hb
      rfl
  rw [this, List.prod_replicate]

theorem cornersOf_mem_length (protos : List RPair) (cor : List PyVal)
    (h : cor ∈ cornersOf protos) : cor.length = protos.length := by
  have := listProduct_mem_length _ _ h
  simpa using this

theorem monotonic_protos_length (model : Model) (rd : RangeDict) (dyns : List String)
    (protos : List RPair) (h : monotonic_protos model rd dyns = .ok protos) :
    protos.length = dyns.length := by
  induction dyns generalizing protos with
  | nil =>
    cases h
    rfl
  | cons d ds ih =>
    simp only [monotonic_protos] at h
    repeat' split at h
    all_goals cases h
    rename_i hps
    simp [ih _ hps]

theorem assign_out_ranges_preserve (l : List (String × PyVal × PyVal)) (rd rdf : RangeDict)
    (t : String) (hnot : ∀ p ∈ l, p.1 ≠ t)
    (hf : assign_out_ranges l rd = .ok rdf) :
    dictGet rdf t = dictGet rd t := by
  induction l generalizing rd with
  | nil =>
    cases hf
    rfl
  | cons p rest ih =>
    obtain ⟨oname, mn, mx⟩ := p
    simp only [assign_out_ranges] at hf
    cases h1 : keyGet rd oname with
    | error e => rw [h1] at hf; exact absurd hf (by simp)
    | ok ri =>
      rw [h1] at hf
      rw [ih _ (fun q hq => hnot q (List.mem_cons_of_mem _ hq)) hf]
      exact dictGet_dictSet_ne _ _ _ _
        (fun hc => hnot (oname, mn, mx) (List.mem_cons_self _ _) hc.symm)

theorem assign_out_ranges_mem (l : List (String × PyVal × PyVal)) (rd rdf : RangeDict)
    (hnd : (l.map Prod.fst).Nodup)
    (hf : assign_out_ranges l rd = .ok rdf) :
    ∀ p ∈ l, ∃ ri, dictGet rdf p.1 = some ri ∧ ri.range = some (p.2.1, p.2.2) := by
  induction l generalizing rd with
  | nil =>
    intro p hp
    cases hp
  | cons q rest ih =>
    intro p hp
    obtain ⟨oname, mn, mx⟩ := q
    simp only [List.map_cons, List.nodup_cons] at hnd
    obtain ⟨hq1, hq2⟩ := hnd
    simp only [assign_out_ranges] at hf
    cases h1 : keyGet rd oname with
    | error e => rw [h1] at hf; exact absurd hf (by simp)
    | ok ri =>
      rw [h1] at hf
      rcases List.mem_cons.mp hp with rfl | hmem
      · refine ⟨{ ri with range := some (mn, mx) }, ?_, rfl⟩
        rw [assign_out_ranges_preserve rest _ rdf oname ?hne hf]
        · exact dictGet_dictSet_self _ _ _
        · intro q hq hc
          exact hq1 (hc ▸ List.mem_map_of_mem Prod.fst hq)
      · exact ih _ hq2 hf p hmem

theorem getD_of_lt {α : Type} (l : List α) (i : Nat) (d : α) (h : i < l.length) :
    l.getD i d = l.get ⟨i, h⟩ := by
  simp [List.getD_eq_getElem?_getD, List.getElem?_eq_getElem h]

theorem zip_getD {α β : Type} (xs : List α) (ys : List β) (i : Nat) (da : α) (db : β)
    (hi : i < xs.length) (hlen : ys.length = xs.length) :
    (xs.zip ys).getD i (da, db) = (xs.getD i da, ys.getD i db) := by
  induction xs generalizing ys i with
  | nil => simp at hi
  | cons x xs ih =>
    cases ys with
    | nil => simp at hlen
    | cons y ys =>
      cases i with
      | zero => rfl
      | succ j =>
        simp only [List.zip_cons_cons, List.getD_cons_succ]
        exact ih ys j (by simpa using hi) (by simpa using hlen)

theorem getD_map_none {α : Type} (l : List α) (j : Nat) :
    (l.map (fun _ => (none : PyVal))).getD j none = none := by
  induction l generalizing j with
  | nil => rfl
  | cons x xs ih =>
    cases j with
    | zero => rfl
    | succ m => exact ih m

theorem updateRunning_spec (f : PyVal → PyVal → Except String PyVal) (ctx : Ctx)
    (pairs : List (String × PyVal)) (rs : List PyVal)
    (h : updateRunning f ctx pairs = .ok rs) :
    rs.length = pairs.length ∧
    ∀ i, i < pairs.length → ∃ out,
      keyGet ctx (pairs.getD i ("", none)).1 = .ok out ∧
      (if (pairs.getD i ("", none)).2.isSome then f out (pairs.getD i ("", none)).2
        else .ok out) = .ok (rs.getD i none) := by
  induction pairs generalizing rs with
  | nil =>
    cases h
    exact ⟨rfl, fun i hi => absurd hi (Nat.not_lt_zero i)⟩
  | cons p rest ih =>
    obtain ⟨o, r⟩ := p
    simp only [updateRunning] at h
    repeat' split at h
    all_goals cases h
    rename_i xa out h1 xb r2 h2 xc rs2 h3
    obtain ⟨hlen, hidx⟩ := ih rs2 h3
    refine ⟨by simp [hlen], ?_⟩
    intro i hi
    cases i with
    | zero =>
      simp only [List.getD_cons_zero]
      exact ⟨out, h1, h2⟩
    | succ j =>
      simp only [List.getD_cons_succ]
      exact hidx j (by simpa using hi)

theorem monotonic_loop_main (execNode : Executor) (dyns outputs : List String)
    (hnd : dyns.Nodup)
    (hpres : ∀ (c : Ctx) (t : String), t ∉ outputs → dictGet (execNode c) t = dictGet c t)
    (corners : List (List PyVal)) :
    ∀ (ctx : Ctx) (rmin rmax : List PyVal) (trace0 : List Ctx)
      (ctxf : Ctx) (rminf rmaxf : List PyVal) (tracef : List Ctx),
      (∀ cor ∈ corners, cor.length = dyns.length) →
      rmin.length = outputs.length → rmax.length = outputs.length →
      monotonic_loop execNode dyns outputs corners ctx rmin rmax trace0
        = .ok (ctxf, rminf, rmaxf, tracef) →
      ∃ newtr : List Ctx,
        tracef = trace0 ++ newtr ∧
        newtr.length = corners.length ∧
        rminf.length = outputs.length ∧
        rmaxf.length = outputs.length ∧
        (∀ n (hn : n < newtr.length),
          (∀ i (hi : i < dyns.length),
            dictGet (newtr.get ⟨n, hn⟩) (dyns.get ⟨i, hi⟩)
              = some ((corners.getD n []).getD i none)) ∧
          (∀ x, x ∉ outputs → x ∉ dyns →
            dictGet (newtr.get ⟨n, hn⟩) x = dictGet ctx x)) ∧
        (∀ j (hj : j < outputs.length), ∃ evals : List PyVal,
          evals.length = corners.length ∧
          (∀ n (hn : n < newtr.length),
            dictGet (execNode (newtr.get ⟨n, hn⟩)) (outputs.get ⟨j, hj⟩)
              = some (evals.getD n none)) ∧
          runFoldAux npMinimumPy (rmin.getD j none) evals = .ok (rminf.getD j none) ∧
          runFoldAux npMaximumPy (rmax.getD j none) evals = .ok (rmaxf.getD j none)) := by
  induction corners with
  | nil =>
    intro ctx rmin rmax trace0 ctxf rminf rmaxf tracef hcor hlm hlM h
    simp only [monotonic_loop] at h
    cases h
    refine ⟨[], by simp, rfl, hlm, hlM, ?_, ?_⟩
    · intro n hn
      exact absurd hn (Nat.not_lt_zero n)
    · intro j hj
      exact ⟨[], rfl, fun n hn => absurd hn (Nat.not_lt_zero n), rfl, rfl⟩
  | cons corner rest ih =>
    intro ctx rmin rmax trace0 ctxf rminf rmaxf tracef hcor hlm hlM h
    simp only [monotonic_loop] at h
    cases hmin : updateRunning npMinimumPy (execNode (setDyns ctx dyns corner))
        (outputs.zip rmin) with
    | error e => rw [hmin] at h; exact absurd h (by simp)
    | ok rminN =>
      rw [hmin] at h
      cases hmax : updateRunning npMaximumPy (execNode (setDyns ctx dyns corner))
          (outputs.zip rmax) with
      | error e => rw [hmax] at h; exact absurd h (by simp)
      | ok rmaxN =>
        rw [hmax] at h
        obtain ⟨hlenN, hidxN⟩ := updateRunning_spec _ _ _ _ hmin
        obtain ⟨hlenX, hidxX⟩ := updateRunning_spec _ _ _ _ hmax
        have hzm : (outputs.zip rmin).length = outputs.length := by
          simp [List.length_zip, hlm]
        have hzM : (outputs.zip rmax).length = outputs.length := by
          simp [List.length_zip, hlM]
        have hlm2 : rminN.length = outputs.length := by rw [hlenN, hzm]
        have hlM2 : rmaxN.length = outputs.length := by rw [hlenX, hzM]
        have hcor2 : ∀ cor ∈ rest, cor.length = dyns.length :=
          fun cor hc => hcor cor (List.mem_cons_of_mem _ hc)
        obtain ⟨newtr, htr, hlen, hlmf, hlMf, htrprop, hev⟩ :=
          ih (execNode (setDyns ctx dyns corner)) rminN rmaxN _ _ _ _ _ hcor2 hlm2 hlM2 h
        refine ⟨setDyns ctx dyns corner :: newtr, ?_, by simp [hlen], hlmf, hlMf, ?_, ?_⟩
        · rw [htr]
          simp
        · intro n hn
          cases n with
          | zero =>
            constructor
            · intro i hi
              have hclen : corner.length = dyns.length :=
                hcor corner (List.mem_cons_self _ _)
              have hi2 : i < corner.length := by omega
              show dictGet (setDyns ctx dyns corner) (dyns.get ⟨i, hi⟩) = _
              simp only [List.getD_cons_zero]
              rw [getD_of_lt corner i none hi2]
              exact dictGet_setDyns_get ctx dyns corner hnd hclen i hi hi2
            · intro x hxo hxd
              show dictGet (setDyns ctx dyns corner) x = dictGet ctx x
              exact dictGet_setDyns_not_mem _ _ _ _ hxd
          | succ m =>
            have hm : m < newtr.length := by simpa using hn
            obtain ⟨ha, hb⟩ := htrprop m hm
            constructor
            · intro i hi
              simp only [List.getD_cons_succ]
              show dictGet (newtr.get ⟨m, hm⟩) (dyns.get ⟨i, hi⟩) = _
              exact ha i hi
            · intro x hxo hxd
              show dictGet (newtr.get ⟨m, hm⟩) x = dictGet ctx x
              rw [hb x hxo hxd, hpres _ x hxo]
              exact dictGet_setDyns_not_mem _ _ _ _ hxd
        · intro j hj
          obtain ⟨evals, hel, hen, hfmin, hfmax⟩ := hev j hj
          obtain ⟨outN, hkeyN, hstepN⟩ := hidxN j (by rw [hzm]; exact hj)
          obtain ⟨outX, hkeyX, hstepX⟩ := hidxX j (by rw [hzM]; exact hj)
          have hzget1 : (outputs.zip rmin).getD j ("", none)
              = (outputs.getD j "", rmin.getD j none) :=
            zip_getD outputs rmin j "" none hj hlm
          have hzget2 : (outputs.zip rmax).getD j ("", none)
              = (outputs.getD j "", rmax.getD j none) :=
            zip_getD outputs rmax j "" none hj hlM
          rw [hzget1] at hkeyN hstepN
          rw [hzget2] at hkeyX hstepX
          rw [hkeyN] at hkeyX
          injection hkeyX with houts
          subst houts
          refine ⟨outN :: evals, by simp [hel], ?_, ?_, ?_⟩
          · intro n hn
            cases n with
            | zero =>
              simp only [List.getD_cons_zero]
              show dictGet (execNode (setDyns ctx dyns corner)) (outputs.get ⟨j, hj⟩)
                = some outN
              have hkey := (keyGet_ok_iff _ _ _).mp hkeyN
              rw [getD_of_lt outputs j "" hj] at hkey
              exact hkey
            | succ m =>
              have hm : m < newtr.length := by simpa using hn
              simp only [List.getD_cons_succ]
              show dictGet (execNode (newtr.get ⟨m, hm⟩)) (outputs.get ⟨j, hj⟩)
                = some (evals.getD m none)
              exact hen m hm
          · simp only [runFoldAux]
            rw [hstepN]
            exact hfmin
          · simp only [runFoldAux]
            rw [hstepX]
            exact hfmax

/-- **C2**: for a node dispatched to monotonic propagation with at least one
dynamic input, the corner loop runs over exactly the 2^k combinations of the
shape-promoted (min, max) proto-vector pairs of the k dynamic inputs (the
Cartesian product, as recorded by the executor-invocation trace), constant
inputs stay fixed at their initializer values in every evaluation, and every
output's assigned range is the (elementwise running minimum, elementwise
running maximum) of the executor's outputs over those corner evaluations. -/
theorem C2_monotonic_corner_enumeration (execNode : Executor) (model : Model)
    (node : Node) (rd rdf : RangeDict) (trace : List Ctx)
    (hf : calc_monotonic_range execNode model node rd = .ok (rdf, trace))
    (hk : dyn_inputs_of node model ≠ [])
    (hndin : node.input.Nodup) (hndout : node.output.Nodup)
    (hdisj : ∀ x ∈ node.input, x ∉ node.output)
    (hpres : ∀ (c : Ctx) (t : String), t ∉ node.output →
      dictGet (execNode c) t = dictGet c t) :
    ∃ protos : List RPair,
      monotonic_protos model rd (dyn_inputs_of node model) = .ok protos ∧
      trace.length = 2 ^ (dyn_inputs_of node model).length ∧
      (∀ n (hn : n < trace.length),
        (∀ i (hi : i < (dyn_inputs_of node model).length),
          dictGet (trace.get ⟨n, hn⟩) ((dyn_inputs_of node model).get ⟨i, hi⟩)
            = some (((cornersOf protos).getD n []).getD i none)) ∧
        (∀ x ∈ node.input, x ∉ dyn_inputs_of node model →
          dictGet (trace.get ⟨n, hn⟩) x
            = some ((model.get_initializer x).map NPVal.arr))) ∧
      (∀ j (hj : j < node.output.length),
        ∃ (evals : List PyVal) (mn mx : PyVal) (ri : RangeInfo),
          evals.length = trace.length ∧
          (∀ n (hn : n < trace.length),
            dictGet (execNode (trace.get ⟨n, hn⟩)) (node.output.get ⟨j, hj⟩)
              = some (evals.getD n none)) ∧
          runFoldPy npMinimumPy evals = .ok mn ∧
          runFoldPy npMaximumPy evals = .ok mx ∧
          dictGet rdf (node.output.get ⟨j, hj⟩) = some ri ∧
          ri.range = some (mn, mx)) := by
  unfold calc_monotonic_range at hf
  split at hf
  · exact absurd hf (by simp)
  rename_i xa ctx hctx
  have hkne : ¬(dyn_inputs_of node model).length = 0 := by
    simpa [List.length_eq_zero] using hk
  rw [if_neg hkne] at hf
  split at hf
  · exact absurd hf (by simp)
  rename_i xb protos hpr
  split at hf
  · exact absurd hf (by simp)
  rename_i xc res hloop
  obtain ⟨ctxf, rminf, rmaxf, tracef⟩ := res
  dsimp only at hf
  split at hf
  · exact absurd hf (by simp)
  rename_i xd rdf2 hassign
  case _ =>
          have hpairs : rdf2 = rdf ∧ tracef = trace := by
            simpa [Prod.ext_iff] using hf
          obtain ⟨h5, h6⟩ := hpairs
          subst h5
          subst h6
          have hnd : (dyn_inputs_of node model).Nodup := hndin.filter _
          have hplen : protos.length = (dyn_inputs_of node model).length :=
            monotonic_protos_length model rd _ protos hpr
          have hcor : ∀ cor ∈ cornersOf protos,
              cor.length = (dyn_inputs_of node model).length := by
            intro cor hc
            rw [cornersOf_mem_length protos cor hc]
            exact hplen
          obtain ⟨newtr, htr, hlen, hlmf, hlMf, htrprop, hev⟩ :=
            monotonic_loop_main execNode (dyn_inputs_of node model) node.output hnd hpres
              (cornersOf protos) ctx _ _ [] ctxf rminf rmaxf tracef hcor
              (List.length_map _ _) (List.length_map _ _) hloop
          have htr2 : tracef = newtr := by simpa using htr
          subst htr2
          refine ⟨protos, hpr, ?_, ?_, ?_⟩
          · rw [hlen, cornersOf_length, hplen]
          · intro n hn
            obtain ⟨ha, hb⟩ := htrprop n hn
            refine ⟨ha, ?_⟩
            intro x hx hxd
            rw [hb x (hdisj x hx) hxd]
            exact mk_node_ctx_inputs model node ctx hctx x hx (hdisj x hx)
          · intro j hj
            obtain ⟨evals, hel, hen, hfmin, hfmax⟩ := hev j hj
            have hmapn : ((node.output.map (fun _ => (none : PyVal))).getD j none) = none :=
              getD_map_none _ _
            rw [hmapn] at hfmin hfmax
            have hjr : j < rminf.length := by rw [hlmf]; exact hj
            have hjR : j < rmaxf.length := by rw [hlMf]; exact hj
            have hzlen : (rminf.zip rmaxf).length = node.output.length := by
              simp [List.length_zip, hlmf, hlMf]
            have hndfst : ((node.output.zip (rminf.zip rmaxf)).map Prod.fst).Nodup := by
              rw [List.map_fst_zip _ _ (by rw [hzlen])]
              exact hndout
            have hjz : j < (node.output.zip (rminf.zip rmaxf)).length := by
              simpa [List.length_zip, hzlen] using hj
            have hmem : (node.output.zip (rminf.zip rmaxf)).get ⟨j, hjz⟩
                ∈ node.output.zip (rminf.zip rmaxf) := List.get_mem _ _ _
            have helemval : (node.output.zip (rminf.zip rmaxf)).get ⟨j, hjz⟩
                = (node.output.get ⟨j, hj⟩, (rminf.getD j none, rmaxf.getD j none)) := by
              simp only [List.get_eq_getElem]
              rw [List.getElem_zip, List.getElem_zip]
              rw [getD_of_lt rminf j none hjr, getD_of_lt rmaxf j none hjR]
              rfl
            obtain ⟨ri, hri, hrange⟩ :=
              assign_out_ranges_mem _ rd rdf2 hndfst hassign _ hmem
            rw [helemval] at hri hrange
            exact ⟨evals, rminf.getD j none, rmaxf.getD j none, ri,
              by rw [hel, hlen], hen, hfmin, hfmax, hri, hrange⟩

/-- Witness node for C2: one dynamic input x, one constant input c, one
output y. -/
def witNodeC2 : Node :=
  { name := "m0", op_type := "Relu", input := ["x", "c"], output := ["y"] }

/-- Witness model for C2. -/
def witModelC2 : Model :=
  { graph_input := ["x"],
    graph_node := [witNodeC2],
    all_tensor_names := ["x", "c", "y"],
    get_initializer := fun t => if t = "c" then some ⟨[1], [3]⟩ else none,
    get_tensor_valueinfo := fun t =>
      if t = "x" then some [1] else if t = "y" then some [1] else none,
    get_tensor_datatype := fun _ => none }

/-- Witness range record for the dynamic input x: range ([2], [5]). -/
def witRIC2 : RangeInfo :=
  { range := some (some (.arr ⟨[1], [2]⟩), some (.arr ⟨[1], [5]⟩)) }

/-- Witness range dictionary for C2. -/
def witRdC2 : RangeDict := [("x", witRIC2), ("y", {})]

/-- Witness executor for C2: copies the value of x into y. -/
def witExecC2 : Executor := fun ctx => dictSet ctx "y" ((dictGet ctx "x").getD none)

/-- Context passed to the executor at the first (min) corner. -/
def witCtxC2a : Ctx :=
  [("x", some (NPVal.arr ⟨[1], [2]⟩)), ("c", some (NPVal.arr ⟨[1], [3]⟩)),
   ("y", some (NPVal.arr ⟨[1], [0]⟩))]

/-- Context passed to the executor at the second (max) corner. -/
def witCtxC2b : Ctx :=
  [("x", some (NPVal.arr ⟨[1], [5]⟩)), ("c", some (NPVal.arr ⟨[1], [3]⟩)),
   ("y", some (NPVal.arr ⟨[1], [2]⟩))]

/-- Trace of executor invocations for the C2 witness: 2^1 corners. -/
def witTraceC2 : List Ctx := [witCtxC2a, witCtxC2b]

/-- Final range dictionary for the C2 witness. -/
def witRdfC2 : RangeDict :=
  [("x", witRIC2),
   ("y", { range := some (some (.arr ⟨[1], [2]⟩), some (.arr ⟨[1], [5]⟩)) })]

theorem C2_monotonic_corner_enumeration_witness :
    calc_monotonic_range witExecC2 witModelC2 witNodeC2 witRdC2
      = .ok (witRdfC2, witTraceC2) ∧
    (∃ protos : List RPair,
      monotonic_protos witModelC2 witRdC2 (dyn_inputs_of witNodeC2 witModelC2)
        = .ok protos ∧
      witTraceC2.length = 2 ^ (dyn_inputs_of witNodeC2 witModelC2).length ∧
      (∀ n (hn : n < witTraceC2.length),
        (∀ i (hi : i < (dyn_inputs_of witNodeC2 witModelC2).length),
          dictGet (witTraceC2.get ⟨n, hn⟩)
              ((dyn_inputs_of witNodeC2 witModelC2).get ⟨i, hi⟩)
            = some (((cornersOf protos).getD n []).getD i none)) ∧
        (∀ x ∈ witNodeC2.input, x ∉ dyn_inputs_of witNodeC2 witModelC2 →
          dictGet (witTraceC2.get ⟨n, hn⟩) x
            = some ((witModelC2.get_initializer x).map NPVal.arr))) ∧
      (∀ j (hj : j < witNodeC2.output.length),
        ∃ (evals : List PyVal) (mn mx : PyVal) (ri : RangeInfo),
          evals.length = witTraceC2.length ∧
          (∀ n (hn : n < witTraceC2.length),
            dictGet (witExecC2 (witTraceC2.get ⟨n, hn⟩)) (witNodeC2.output.get ⟨j, hj⟩)
              = some (evals.getD n none)) ∧
          runFoldPy npMinimumPy evals = .ok mn ∧
          runFoldPy npMaximumPy evals = .ok mx ∧
          dictGet witRdfC2 (witNodeC2.output.get ⟨j, hj⟩) = some ri ∧
          ri.range = some (mn, mx))) :=
  ⟨rfl, C2_monotonic_corner_enumeration witExecC2 witModelC2 witNodeC2 witRdC2 witRdfC2
    witTraceC2 rfl (by decide) (by decide) (by decide) (by decide)
    (fun c t ht => dictGet_dictSet_ne c "y" t _ (by simpa [witNodeC2] using ht))⟩

end RangeAnalysis
